import Mathlib

/-!
Verification of the notion-sync-tools markdown/Notion conversion core.

Strings are modelled as `List Char` (written `Str`), mirroring Python string
operations character for character.  Each embedded definition is translated
from the repository source:
  * `MdUp`    — src/notion_sync/markdown_to_notion.py
  * `Script`  — src/notion_sync/markdown-to-notion.py (standalone script)
  * `NtMd`    — src/notion_sync/notion_to_markdown.py
-/

abbrev Str := List Char

/-- The backtick character (U+0060). -/
def btick : Char := Char.ofNat 96

/-- Python `str` whitespace used by `strip`/`rstrip` (space, TAB, LF, CR, VT, FF). -/
def isPyWs (c : Char) : Bool :=
  c == ' ' || c == '\t' || c == '\n' || c == '\r' || c == Char.ofNat 11 || c == Char.ofNat 12

/-- Python `s.lstrip()`. -/
def pyLstrip (s : Str) : Str := s.dropWhile isPyWs

/-- Python `s.rstrip()`. -/
def pyRstrip (s : Str) : Str := (s.reverse.dropWhile isPyWs).reverse

/-- Python `s.strip()`. -/
def pyStrip (s : Str) : Str := pyRstrip (pyLstrip s)

/-- Python `s.lstrip('\n')`. -/
def lstripNl (s : Str) : Str := s.dropWhile (fun c => c == '\n')

/-- Python `s.split(c)` for a single-character separator: all parts kept,
including empty ones; at least one part is returned. -/
def splitChar (c : Char) : Str → List Str
  | [] => [[]]
  | x :: xs =>
    let r := splitChar c xs
    if x == c then [] :: r
    else
      match r with
      | [] => [[x]]
      | h :: t => (x :: h) :: t

/-- Split at the leftmost occurrence of the (nonempty) separator `sep`:
`some (before, after)`, or `none` when `sep` does not occur in `s`. -/
def splitFirst (sep : Str) : Str → Option (Str × Str)
  | [] => none
  | x :: xs =>
    if sep.isPrefixOf (x :: xs) then some ([], (x :: xs).drop sep.length)
    else
      match splitFirst sep xs with
      | none => none
      | some (a, b) => some (x :: a, b)

/-- Python `s.split(sep, 2)`: at most three parts. -/
def pySplit2 (sep : Str) (s : Str) : List Str :=
  match splitFirst sep s with
  | none => [s]
  | some (a, r) =>
    match splitFirst sep r with
    | none => [a, r]
    | some (b, r2) => [a, b, r2]

/-- Python `sub in s` (substring containment). -/
def hasSub (sub s : Str) : Bool := (splitFirst sub s).isSome

/-- Python `s.replace(sub, '')` (remove every non-overlapping leftmost
occurrence), fuel-bounded; `fuel = s.length` always suffices. -/
def removeSub (sub : Str) : Nat → Str → Str
  | 0, s => s
  | fuel + 1, s =>
    match splitFirst sub s with
    | none => s
    | some (a, b) => a ++ removeSub sub fuel b

/-- Python dict assignment `d[k] = v` on an insertion-ordered association
list: an existing key keeps its position and gets the new value, a new key is
appended at the end. -/
def dictUpd : List (Str × Str) → Str → Str → List (Str × Str)
  | [], k, v => [(k, v)]
  | (k0, v0) :: rest, k, v =>
    if k0 == k then (k0, v) :: rest else (k0, v0) :: dictUpd rest k v

namespace MdUp

/-- `parse_frontmatter` (markdown_to_notion.py, lines 59-76): split YAML
frontmatter from a markdown document.  The document is split on the substring
`"---\n"` with maxsplit 2; when at least three parts result, the middle part is
parsed as `key: value` lines and the body is the third part with leading
newlines stripped; otherwise the metadata is empty and the body is the whole
input. -/
def parse_frontmatter (content : Str) : List (Str × Str) × Str :=
  if ("---\n".data).isPrefixOf content then
    match pySplit2 ("---\n".data) content with
    | [_, fmtext, rest] =>
      let fm := (splitChar '\n' fmtext).foldl
        (fun d line =>
          match splitFirst [':'] line with
          | some (k, v) => dictUpd d (pyStrip k) (pyStrip v)
          | none => d) []
      (fm, lstripNl rest)
    | _ => ([], content)
  else ([], content)

/-- The serialised frontmatter text: one `key: value` line per entry
(markdown_to_notion.py, lines 705-707). -/
def fmTextOf (fm : List (Str × Str)) : Str :=
  (fm.map (fun kv => kv.1 ++ (": ".data) ++ kv.2 ++ ['\n'])).flatten

/-- The document written back by `upload_to_notion` (markdown_to_notion.py,
lines 704-710): `"---\n"`, the `key: value` lines, `"---\n\n"`, then the body. -/
def joinFrontmatter (fm : List (Str × Str)) (body : Str) : Str :=
  ("---\n".data) ++ fmTextOf fm ++ ("---\n\n".data) ++ body

/-- Lowercase hexadecimal digit ([a-f0-9]). -/
def isHexL (c : Char) : Bool :=
  decide ((97 ≤ c.toNat ∧ c.toNat ≤ 102) ∨ (48 ≤ c.toNat ∧ c.toNat ≤ 57))

/-- Try to read exactly `n` lowercase-hex characters at the front. -/
def takeHex (n : Nat) (s : Str) : Option (Str × Str) :=
  let t := s.take n
  if t.length = n ∧ t.all isHexL then some (t, s.drop n) else none

/-- Match the regex alternation
`[a-f0-9]{32}|[a-f0-9]{8}-[a-f0-9]{4}-[a-f0-9]{4}-[a-f0-9]{4}-[a-f0-9]{12}`
anchored at the start of `s` (first alternative tried first, as in `re`). -/
def matchIdAt (s : Str) : Option Str :=
  match takeHex 32 s with
  | some (t, _) => some t
  | none =>
    match takeHex 8 s with
    | none => none
    | some (a, r1) =>
      match r1 with
      | '-' :: r1b =>
        match takeHex 4 r1b with
        | none => none
        | some (b, r2) =>
          match r2 with
          | '-' :: r2b =>
            match takeHex 4 r2b with
            | none => none
            | some (c, r3) =>
              match r3 with
              | '-' :: r3b =>
                match takeHex 4 r3b with
                | none => none
                | some (d, r4) =>
                  match r4 with
                  | '-' :: r4b =>
                    match takeHex 12 r4b with
                    | none => none
                    | some (e, _) =>
                      some (a ++ '-' :: b ++ '-' :: c ++ '-' :: d ++ '-' :: e)
                  | _ => none
              | _ => none
          | _ => none
      | _ => none

/-- `re.search`: leftmost match of the page-id pattern. -/
def searchId : Str → Option Str
  | [] => none
  | c :: cs =>
    match matchIdAt (c :: cs) with
    | some m => some m
    | none => searchId cs

/-- Insert hyphens into a bare 32-character id: 8-4-4-4-12
(markdown_to_notion.py, line 54). -/
def hyphenate (p : Str) : Str :=
  p.take 8 ++ '-' :: ((p.drop 8).take 4) ++ '-' :: ((p.drop 12).take 4)
    ++ '-' :: ((p.drop 16).take 4) ++ '-' :: p.drop 20

/-- `extract_page_id` (markdown_to_notion.py lines 44-56, identical in
notion_to_markdown.py lines 39-53): only inputs containing `"notion.so"` are
searched for an id (which is hyphenated when bare); every other input is
returned unchanged. -/
def extract_page_id (input : Str) : Str :=
  if hasSub ("notion.so".data) input then
    match searchId input with
    | some pid => if pid.contains '-' then pid else hyphenate pid
    | none => input
  else input

end MdUp

/-- Rich-text annotation flags.  The Python dicts only carry the keys they
set; absent keys read as `False` downstream, so defaults model absence. -/
structure Annotations where
  bold : Bool := false
  italic : Bool := false
  strikethrough : Bool := false
  code : Bool := false
deriving DecidableEq, Repr

/-- One Notion rich-text object: `{"type": "text", "text": {"content": …,
"link": …}, "annotations": …}`. -/
structure RichText where
  content : Str
  link : Option Str := none
  annotations : Annotations := {}
deriving DecidableEq, Repr

/-- `if len(content) > max_length: content = content[:max_length]`. -/
def truncMax (maxLen : Nat) (s : Str) : Str :=
  if s.length > maxLen then s.take maxLen else s

/-- Extend a partial leftmost-match with one leading character. -/
def findCodeStep (c : Char) : Option (Str × Str × Str) → Option (Str × Str × Str)
  | some (p, m, r) => some (c :: p, m, r)
  | none => none

/-- Leftmost match of the regex `` `[^`]+` `` in `s`:
`some (before, match, after)` or `none`. -/
def findCode : Str → Option (Str × Str × Str)
  | [] => none
  | c :: cs =>
    if c == btick then
      let inner := cs.takeWhile (fun d => !(d == btick))
      let rest := cs.drop inner.length
      if inner.isEmpty then findCodeStep c (findCode cs)
      else
        match rest with
        | _ :: ds => some ([], c :: inner ++ [btick], ds)
        | [] => findCodeStep c (findCode cs)
    else findCodeStep c (findCode cs)

/-- ``re.split(r'(`[^`]+`)', text)``: split on code spans, keeping them (and
keeping empty in-between parts, which the consumer skips). -/
def reSplitCode : Nat → Str → List Str
  | 0, s => [s]
  | fuel + 1, s =>
    match findCode s with
    | none => [s]
    | some (p, m, r) => p :: m :: reSplitCode fuel r

/-- Anchored match of `\[([^\]]+)\]\(([^\)]+)\)`: link text, destination,
remainder. -/
def matchLink : Str → Option (Str × Str × Str)
  | '[' :: cs =>
    let t := cs.takeWhile (fun c => !(c == ']'))
    if t.isEmpty then none
    else
      match cs.drop t.length with
      | ']' :: '(' :: cs2 =>
        let u := cs2.takeWhile (fun c => !(c == ')'))
        if u.isEmpty then none
        else
          match cs2.drop u.length with
          | ')' :: rest => some (t, u, rest)
          | _ => none
      | _ => none
  | _ => none

/-- Anchored match of `\*\*([^\*]+)\*\*`. -/
def matchBold : Str → Option (Str × Str)
  | '*' :: '*' :: cs =>
    let t := cs.takeWhile (fun c => !(c == '*'))
    if t.isEmpty then none
    else
      match cs.drop t.length with
      | '*' :: '*' :: rest => some (t, rest)
      | _ => none
  | _ => none

/-- Anchored match of `\*([^\*]+)\*`. -/
def matchItalic : Str → Option (Str × Str)
  | '*' :: cs =>
    let t := cs.takeWhile (fun c => !(c == '*'))
    if t.isEmpty then none
    else
      match cs.drop t.length with
      | '*' :: rest => some (t, rest)
      | _ => none
  | _ => none

/-- Anchored match of `~~([^~]+)~~`. -/
def matchStrike : Str → Option (Str × Str)
  | '~' :: '~' :: cs =>
    let t := cs.takeWhile (fun c => !(c == '~'))
    if t.isEmpty then none
    else
      match cs.drop t.length with
      | '~' :: '~' :: rest => some (t, rest)
      | _ => none
  | _ => none

/-- Anchored match of `\[([^\]]+)\]`: bracketed text, remainder. -/
def matchBracket : Str → Option (Str × Str)
  | '[' :: cs =>
    let t := cs.takeWhile (fun c => !(c == ']'))
    if t.isEmpty then none
    else
      match cs.drop t.length with
      | ']' :: rest => some (t, rest)
      | _ => none
  | _ => none

/-- Index of the leftmost occurrence of `sub`, when any. -/
def firstIdxSub (sub s : Str) : Option Nat := (splitFirst sub s).map (fun p => p.1.length)

/-- `next_special`: distance to the next `[`, `**`, `*` or `~~` occurrence
(`s.length` when none occurs). -/
def nextSpecialIdx (s : Str) : Nat :=
  [ firstIdxSub ("[".data) s, firstIdxSub ("**".data) s,
    firstIdxSub ("*".data) s, firstIdxSub ("~~".data) s ].foldl
    (fun m o => match o with | some i => min m i | none => m) s.length

/-- Annotations attached to a link run, detected by substring presence in the
raw link text. -/
def linkAnnotations (ltext : Str) : Annotations :=
  { bold := hasSub ("**".data) ltext
    italic := ltext.contains '*' && !hasSub ("**".data) ltext
    strikethrough := hasSub ("~~".data) ltext }

/-- `link_text.replace('**', '').replace('*', '').replace('~~', '')`. -/
def cleanLinkText (t : Str) : Str :=
  let a := removeSub ("**".data) t.length t
  let b := a.filter (fun c => !(c == '*'))
  removeSub ("~~".data) b.length b

/-- The `while pos < len(part)` scanner over one non-code part, shared by both
versions of `parse_markdown_formatting`.  `resolver` is how a link
destination is turned into an attached URL (`none` = render as plain text);
`bracketFB` enables the script's extra non-link bracket handling.  Each
iteration consumes at least one character, so `fuel = s.length` suffices. -/
def inlineScan (resolver : Str → Option Str) (bracketFB : Bool) (maxLen : Nat) :
    Nat → Str → List RichText
  | 0, _ => []
  | _, [] => []
  | fuel + 1, s =>
    match matchLink s with
    | some (ltext, lurl, rest) =>
      let clean := truncMax maxLen (cleanLinkText ltext)
      let run : RichText :=
        match resolver lurl with
        | none => { content := clean, annotations := linkAnnotations ltext }
        | some u => { content := clean, link := some u, annotations := linkAnnotations ltext }
      run :: inlineScan resolver bracketFB maxLen fuel rest
    | none =>
    match matchBold s with
    | some (t, rest) =>
      ({ content := truncMax maxLen t, annotations := { bold := true } } : RichText) ::
        inlineScan resolver bracketFB maxLen fuel rest
    | none =>
    match matchItalic s with
    | some (t, rest) =>
      ({ content := truncMax maxLen t, annotations := { italic := true } } : RichText) ::
        inlineScan resolver bracketFB maxLen fuel rest
    | none =>
    match matchStrike s with
    | some (t, rest) =>
      ({ content := truncMax maxLen t, annotations := { strikethrough := true } } : RichText) ::
        inlineScan resolver bracketFB maxLen fuel rest
    | none =>
      if bracketFB && (match s with | '[' :: _ => true | _ => false) then
        match matchBracket s with
        | some (inner, rest) =>
          if (match rest with | '(' :: _ => true | _ => false) then
            inlineScan resolver bracketFB maxLen fuel (s.drop 1)
          else
            ({ content := truncMax maxLen ('[' :: inner ++ [']']) } : RichText) ::
              inlineScan resolver bracketFB maxLen fuel rest
        | none =>
          match nextSpecialIdx s with
          | 0 => inlineScan resolver bracketFB maxLen fuel (s.drop 1)
          | ns + 1 =>
            ({ content := truncMax maxLen (s.take (ns + 1)) } : RichText) ::
              inlineScan resolver bracketFB maxLen fuel (s.drop (ns + 1))
      else
        match nextSpecialIdx s with
        | 0 => inlineScan resolver bracketFB maxLen fuel (s.drop 1)
        | ns + 1 =>
          ({ content := truncMax maxLen (s.take (ns + 1)) } : RichText) ::
            inlineScan resolver bracketFB maxLen fuel (s.drop (ns + 1))

/-- Processing of a single `re.split` part: empty parts are skipped, parts
starting and ending with a backtick become one atomic code-annotated run, the
rest go through the inline scanner. -/
def partRuns (resolver : Str → Option Str) (bracketFB : Bool) (maxLen : Nat) (part : Str) :
    List RichText :=
  if part.isEmpty then []
  else if (match part.head? with | some c => c == btick | none => false) &&
          (match part.getLast? with | some c => c == btick | none => false) then
    [{ content := truncMax maxLen ((part.drop 1).dropLast), annotations := { code := true } }]
  else inlineScan resolver bracketFB maxLen part.length part

/-- Common body of `parse_markdown_formatting` in both source files: split on
code spans, process each part, fall back to one empty run. -/
def parseFmtCore (resolver : Str → Option Str) (bracketFB : Bool) (maxLen : Nat)
    (text : Str) : List RichText :=
  let parts := reSplitCode text.length text
  let runs := (parts.map (partRuns resolver bracketFB maxLen)).flatten
  if runs.isEmpty then [{ content := [] }] else runs

namespace MdUp

/-- `parse_markdown_formatting` (markdown_to_notion.py, lines 79-193): links
keep their destination verbatim and there is no bracket fallback. -/
def parse_markdown_formatting (maxLen : Nat) (text : Str) : List RichText :=
  parseFmtCore (fun u => some u) false maxLen text

end MdUp

namespace Script

/-- Python indexing `xs[0]` on a split result (a split result is never
empty). -/
def splitHead (xs : List Str) : Str :=
  match xs with
  | [] => []
  | h :: _ => h

/-- `resolve_link` (markdown-to-notion.py, lines 214-232): absolute URLs pass
through, relative destinations are looked up (anchor fragment stripped) in the
link-resolution map, unresolved `.md` destinations become `none` (plain
text), anything else passes through. -/
def resolve_link (linkMap : List (Str × Str)) (url : Str) : Option Str :=
  if ("http://".data).isPrefixOf url || ("https://".data).isPrefixOf url ||
     ("mailto:".data).isPrefixOf url then some url
  else
    let baseUrl := Script.splitHead (splitChar '#' url)
    match linkMap.lookup baseUrl with
    | some v => some v
    | none => if (".md".data).isSuffixOf baseUrl then none else some url

/-- `parse_markdown_formatting` (markdown-to-notion.py, lines 235-394): the
module-level `_link_map` is passed explicitly; `MAX_TEXT_LENGTH = 2000`. -/
def parse_markdown_formatting (linkMap : List (Str × Str)) (text : Str) : List RichText :=
  parseFmtCore (resolve_link linkMap) true 2000 text

end Script

/-- One row of a Notion table: the list of cells, each a rich-text list. -/
abbrev TableRow := List (List RichText)

/-- Encoded Notion block objects produced by `markdown_to_notion_blocks`
(identical structure in both source files). -/
inductive Block where
  | heading1 (rt : List RichText)
  | heading2 (rt : List RichText)
  | heading3 (rt : List RichText)
  | code (rt : List RichText) (language : Str)
  | table (width : Nat) (children : List TableRow)
  | divider
  | quote (rt : List RichText)
  | bulleted (rt : List RichText)
  | todo (rt : List RichText) (checked : Bool)
  | numbered (rt : List RichText)
  | paragraph (rt : List RichText)
deriving DecidableEq, Repr

/-- The `(Table continued - part N)` paragraph inserted between table chunks. -/
def contMarker (partNum : Nat) : Block :=
  .paragraph [{ content := ("(Table continued - part ".data) ++ Nat.toDigits 10 partNum ++ [')'] }]

/-- `MAX_TABLE_ROWS` (both sources): Notion's per-table row cap. -/
def maxTableRows : Nat := 100

/-- The chunk loop `for chunk_idx in range(0, len(data_rows), chunk_size)`
with `chunk_size = MAX_TABLE_ROWS - 1 = 99`: each chunk is re-headed with the
original header row and a continuation marker follows every chunk except the
last.  Each step consumes at least one data row, so `fuel = data.length`
suffices. -/
def chunkTablesAux (numCols : Nat) (headerRow : TableRow) :
    Nat → List TableRow → Nat → List Block
  | 0, _, _ => []
  | fuel + 1, data, partNum =>
    let chunk := data.take 99
    let rest := data.drop 99
    let tbl := Block.table numCols (headerRow :: chunk)
    if rest.isEmpty then [tbl]
    else tbl :: contMarker (partNum + 1) :: chunkTablesAux numCols headerRow fuel rest (partNum + 1)

/-- Emission of one parsed table (both sources, markdown_to_notion.py lines
307-353): a table of at most `maxTableRows` rows is a single block, a larger
one is split into chunks of 99 data rows re-headed with the header row and
separated by continuation markers. -/
def emitTableBlocks (numCols : Nat) (children : List TableRow) : List Block :=
  if children.length ≤ maxTableRows then [Block.table numCols children]
  else
    match children with
    | [] => [Block.table numCols []]
    | headerRow :: dataRows => chunkTablesAux numCols headerRow dataRows.length dataRows 1

/-- Cell extraction for collected table lines: separator rows (prefix `|-` or
`|---`) are dropped, cells are the nonempty stripped `|`-separated fields,
and a line with no surviving cell is dropped. -/
def parseTableRows (tableLines : List Str) : List (List Str) :=
  tableLines.filterMap fun tl =>
    if ("|---".data).isPrefixOf tl || ("|-".data).isPrefixOf tl then none
    else
      let cells := ((splitChar '|' tl).map pyStrip).filter (fun c => !c.isEmpty)
      if cells.isEmpty then none else some cells

/-- `while len(row) < num_cols: row.append(""); row[:num_cols]`. -/
def padCells (numCols : Nat) (row : List Str) : List Str :=
  (row ++ List.replicate (numCols - row.length) []).take numCols

/-- The classification outcome of one line of markdown in the encoder's
`while` loop. -/
inductive LineKind where
  | blank | h1 | h2 | h3 | fence | table | divider | quote | bulleted | todo | numbered | para
deriving DecidableEq, Repr

/-- Length of a `^\d+\. ` prefix, when the line has one. -/
def numberedPrefixLen (line : Str) : Option Nat :=
  let d := line.takeWhile (fun c => c.isDigit)
  if d.isEmpty then none
  else if (". ".data).isPrefixOf (line.drop d.length) then some (d.length + 2) else none

/-- The three-backtick code-fence opener. -/
def fenceChars : Str := [btick, btick, btick]

/-- The `if/elif` dispatch of `markdown_to_notion_blocks` (both sources,
markdown_to_notion.py lines 206-402), on the rstripped current line and the
raw next line: blank → heading 1/2/3 → code fence → table (current and next
line both contain `|`) → divider → quote → bulleted (`- ` but not `- [`) →
to-do (`- [`) → numbered → paragraph. -/
def classify (line : Str) (next : Option Str) : LineKind :=
  if line.isEmpty then .blank
  else if ("# ".data).isPrefixOf line then .h1
  else if ("## ".data).isPrefixOf line then .h2
  else if ("### ".data).isPrefixOf line then .h3
  else if fenceChars.isPrefixOf line then .fence
  else if line.contains '|' && (match next with | some n => n.contains '|' | none => false) then
    .table
  else if pyStrip line == ("---".data) then .divider
  else if ("> ".data).isPrefixOf line then .quote
  else if ("- ".data).isPrefixOf line && !(("- [".data).isPrefixOf line) then .bulleted
  else if ("- [".data).isPrefixOf line then .todo
  else if (numberedPrefixLen line).isSome then .numbered
  else .para

/-- Code-fence character class `[a-z0-9 +#]` with `re.IGNORECASE`. -/
def isLangChar (c : Char) : Bool :=
  decide ((97 ≤ c.toNat ∧ c.toNat ≤ 122) ∨ (65 ≤ c.toNat ∧ c.toNat ≤ 90) ∨
          (48 ≤ c.toNat ∧ c.toNat ≤ 57)) || c == ' ' || c == '+' || c == '#'

/-- Language tag of a code fence: the optional `[a-z0-9 +#]+` group after the
backticks, stripped, defaulting to `plain text`. -/
def codeLanguage (line : Str) : Str :=
  let g := (line.drop 3).takeWhile isLangChar
  if g.isEmpty then ("plain text".data)
  else
    let st := pyStrip g
    if st.isEmpty then ("plain text".data) else st

/-- `checked = 'x' in line[0:5].lower()`. -/
def todoChecked (line : Str) : Bool := ((line.take 5).map Char.toLower).contains 'x'

/-- `re.sub(r'^- \[[x ]\] ', '', line, flags=re.IGNORECASE)`. -/
def todoContent (line : Str) : Str :=
  match line with
  | '-' :: ' ' :: '[' :: c :: ']' :: ' ' :: rest =>
    if c == 'x' || c == 'X' || c == ' ' then rest else line
  | _ => line

/-- `'\n'.join(xs)`. -/
def joinNl (xs : List Str) : Str := List.intercalate ['\n'] xs

/-- The line-scanning loop of `markdown_to_notion_blocks`, parametrised over
the inline formatter (the two source files differ only there and in the text
cap).  Every iteration consumes at least one line, so `fuel = lines.length`
suffices. -/
def processAux (fmt : Str → List RichText) (maxLen : Nat) : Nat → List Str → List Block
  | 0, _ => []
  | _, [] => []
  | fuel + 1, l :: ls =>
    let line := pyRstrip l
    match classify line ls.head? with
    | .blank => processAux fmt maxLen fuel ls
    | .h1 => .heading1 (fmt (line.drop 2)) :: processAux fmt maxLen fuel ls
    | .h2 => .heading2 (fmt (line.drop 3)) :: processAux fmt maxLen fuel ls
    | .h3 => .heading3 (fmt (line.drop 4)) :: processAux fmt maxLen fuel ls
    | .fence =>
      let language := codeLanguage line
      let contentLines := ls.takeWhile (fun x => !(fenceChars.isPrefixOf (pyStrip x)))
      let rest := (ls.drop contentLines.length).drop 1
      let codeText := truncMax maxLen (joinNl (contentLines.map pyRstrip))
      .code [{ content := codeText }] language :: processAux fmt maxLen fuel rest
    | .table =>
      let tableLines := ((l :: ls).takeWhile (fun x => x.contains '|')).map pyStrip
      let rest := (l :: ls).drop tableLines.length
      let tblBlocks :=
        if !(tableLines.all (fun tl => tl.contains '-' || tl == ("|".data))) then
          match parseTableRows tableLines with
          | [] => []
          | r0 :: rtl =>
            let numCols := r0.length
            emitTableBlocks numCols ((r0 :: rtl).map (fun row => (padCells numCols row).map fmt))
        else []
      tblBlocks ++ processAux fmt maxLen fuel rest
    | .divider => .divider :: processAux fmt maxLen fuel ls
    | .quote => .quote (fmt (line.drop 2)) :: processAux fmt maxLen fuel ls
    | .bulleted => .bulleted (fmt (line.drop 2)) :: processAux fmt maxLen fuel ls
    | .todo => .todo (fmt (todoContent line)) (todoChecked line) :: processAux fmt maxLen fuel ls
    | .numbered =>
      .numbered (fmt (line.drop ((numberedPrefixLen line).getD 0))) :: processAux fmt maxLen fuel ls
    | .para => .paragraph (fmt line) :: processAux fmt maxLen fuel ls

namespace MdUp

/-- `markdown_to_notion_blocks` (markdown_to_notion.py, lines 196-413), with
`config.max_text_length` passed explicitly. -/
def markdown_to_notion_blocks (maxLen : Nat) (md : Str) : List Block :=
  let lines := splitChar '\n' md
  processAux (parse_markdown_formatting maxLen) maxLen lines.length lines

end MdUp

namespace Script

/-- `markdown_to_notion_blocks` (markdown-to-notion.py, lines 397-640): same
loop, with the script's link-resolving formatter and `MAX_TEXT_LENGTH`. -/
def markdown_to_notion_blocks (linkMap : List (Str × Str)) (md : Str) : List Block :=
  let lines := splitChar '\n' md
  processAux (parse_markdown_formatting linkMap) 2000 lines.length lines

/-- One already-fetched remote child block, as seen by `delete_all_blocks`:
its `type` field and whether the remote DELETE call succeeds on it (a failing
DELETE raises `HTTPError`, which the code swallows). -/
structure RemoteBlock where
  btype : Str
  deletable : Bool
deriving DecidableEq, Repr

/-- `PROTECTED_BLOCK_TYPES` (markdown-to-notion.py, line 683). -/
def PROTECTED_BLOCK_TYPES : List Str :=
  [("child_page".data), ("child_database".data), ("synced_block".data)]

/-- The deletion loop of `delete_all_blocks` (markdown-to-notion.py, lines
671-737) over the enumerated blocks: a protected block is skipped and counted
as preserved when `preserve_children` is set; otherwise a DELETE is attempted
and counted when it succeeds (its `HTTPError` is ignored when it fails).
Returns `(deleted, preserved)`. -/
def delete_all_blocks (preserveChildren : Bool) (blocks : List RemoteBlock) : Nat × Nat :=
  blocks.foldl
    (fun acc b =>
      if preserveChildren && PROTECTED_BLOCK_TYPES.contains b.btype then (acc.1, acc.2 + 1)
      else if b.deletable then (acc.1 + 1, acc.2) else acc)
    (0, 0)

end Script

/-- Outcome of one HTTP attempt inside `make_api_request`: a parsed response,
an `HTTPError` with its status code, or any other exception. -/
inductive Outcome where
  | ok (v : Nat)
  | http (code : Nat)
  | exc
deriving DecidableEq, Repr

/-- How `make_api_request` terminates: a returned response, a re-raised
`HTTPError`, a re-raised other exception, or the `RuntimeError` raised when
the loop body never ran. -/
inductive ReqResult where
  | success (v : Nat)
  | fatalHttp (code : Nat)
  | fatalExc
  | fatalNone
deriving DecidableEq, Repr

/-- Whether a request run ended in a returned response. -/
def ReqResult.isSuccess : ReqResult → Bool
  | .success _ => true
  | _ => false

/-- Observable trace of one `make_api_request` call: final result, number of
HTTP attempts issued, and the chronological list of `time.sleep` durations. -/
structure RunTrace where
  result : ReqResult
  attempts : Nat
  waits : List ℚ
deriving DecidableEq, Repr

/-- The `for attempt in range(retry_attempts)` loop of `make_api_request`
(markdown_to_notion.py lines 452-492, identical in notion_to_markdown.py
lines 94-134).  `responses k` is the outcome of the `k`-th attempt; on 429
the code sleeps `retry_delay * (attempt + 1)` and continues (even on the last
attempt), on any other failure it sleeps `retry_delay` and continues unless
this was the last attempt, in which case it re-raises; falling out of the
loop re-raises the recorded last error. -/
def apiLoop (responses : Nat → Outcome) (retryAttempts : Nat) (retryDelay : ℚ) :
    Nat → Nat → Option Outcome → RunTrace
  | _, 0, lastErr =>
    { result :=
        match lastErr with
        | some (.http c) => .fatalHttp c
        | some .exc => .fatalExc
        | some (.ok v) => .success v
        | none => .fatalNone
      attempts := 0, waits := [] }
  | attempt, fuel + 1, _ =>
    match responses attempt with
    | .ok v => { result := .success v, attempts := 1, waits := [] }
    | .http c =>
      if c = 429 then
        let r := apiLoop responses retryAttempts retryDelay (attempt + 1) fuel (some (.http c))
        { result := r.result, attempts := r.attempts + 1,
          waits := retryDelay * (attempt + 1) :: r.waits }
      else if attempt < retryAttempts - 1 then
        let r := apiLoop responses retryAttempts retryDelay (attempt + 1) fuel (some (.http c))
        { result := r.result, attempts := r.attempts + 1, waits := retryDelay :: r.waits }
      else { result := .fatalHttp c, attempts := 1, waits := [] }
    | .exc =>
      if attempt < retryAttempts - 1 then
        let r := apiLoop responses retryAttempts retryDelay (attempt + 1) fuel (some .exc)
        { result := r.result, attempts := r.attempts + 1, waits := retryDelay :: r.waits }
      else { result := .fatalExc, attempts := 1, waits := [] }

/-- `make_api_request` with `retry_attempts` and `retry_delay` from the
configuration. -/
def make_api_request (responses : Nat → Outcome) (retryAttempts : Nat) (retryDelay : ℚ) :
    RunTrace :=
  apiLoop responses retryAttempts retryDelay 0 retryAttempts none

namespace NtMd

/-- Remote blocks as consumed by `block_to_markdown` / `download_from_notion`
(notion_to_markdown.py).  `callout`'s icon is `some emoji` when the icon dict
has `type == 'emoji'`, `other` carries an unrecognised type tag. -/
inductive DBlock where
  | paragraph (rt : List RichText)
  | heading1 (rt : List RichText)
  | heading2 (rt : List RichText)
  | heading3 (rt : List RichText)
  | bulleted (rt : List RichText)
  | numbered (rt : List RichText)
  | todo (rt : List RichText) (checked : Bool)
  | code (rt : List RichText) (language : Str)
  | quote (rt : List RichText)
  | callout (rt : List RichText) (icon : Option Str)
  | divider
  | toggle (rt : List RichText)
  | table
  | tableRow (cells : List (List RichText))
  | childPage (id : Str) (title : Str)
  | linkToPage (pageId : Str)
  | other (btype : Str)
deriving DecidableEq, Repr

/-- `rich_text_to_markdown` (notion_to_markdown.py, lines 166-194): wrap each
run's content in code, bold, italic, strikethrough markers in that order,
then in link syntax. -/
def rich_text_to_markdown (rts : List RichText) : Str :=
  (rts.map (fun t =>
    let c1 := if t.annotations.code then btick :: t.content ++ [btick] else t.content
    let c2 := if t.annotations.bold then ("**".data) ++ c1 ++ ("**".data) else c1
    let c3 := if t.annotations.italic then '*' :: c2 ++ ['*'] else c2
    let c4 := if t.annotations.strikethrough then ("~~".data) ++ c3 ++ ("~~".data) else c3
    match t.link with
    | some u => '[' :: c4 ++ (']' :: '(' :: u) ++ [')']
    | none => c4)).flatten

/-- The default callout icon (the source's literal emoji). -/
def calloutIcon : Str := "💡".data

/-- The page-reference arrow used by `child_page` / `link_to_page` rendering. -/
def arrowStr : Str := "→".data

/-- `block_to_markdown` (notion_to_markdown.py, lines 197-296).  The
page-links map is passed explicitly (the source threads a mutable dict that
`download_from_notion` has already filled with every `child_page` id before
the conversion loop runs, so the in-loop insertion is redundant). -/
def block_to_markdown (pageMap : List (Str × Str)) : DBlock → Str
  | .paragraph rt => rich_text_to_markdown rt
  | .heading1 rt => ("# ".data) ++ rich_text_to_markdown rt
  | .heading2 rt => ("## ".data) ++ rich_text_to_markdown rt
  | .heading3 rt => ("### ".data) ++ rich_text_to_markdown rt
  | .bulleted rt => ("- ".data) ++ rich_text_to_markdown rt
  | .numbered rt => ("1. ".data) ++ rich_text_to_markdown rt
  | .todo rt checked =>
    ("- [".data) ++ [if checked then 'x' else ' '] ++ ("] ".data) ++ rich_text_to_markdown rt
  | .code rt language =>
    fenceChars ++ language ++ '\n' :: rich_text_to_markdown rt ++ '\n' :: fenceChars
  | .quote rt => ("> ".data) ++ rich_text_to_markdown rt
  | .callout rt icon =>
    ("> ".data) ++ (icon.getD calloutIcon) ++ ' ' :: rich_text_to_markdown rt
  | .divider => ("---".data)
  | .toggle rt =>
    ("<details><summary>".data) ++ rich_text_to_markdown rt ++ ("</summary>\n\n</details>".data)
  | .table => []
  | .tableRow cells =>
    ("| ".data) ++ List.intercalate (" | ".data) (cells.map rich_text_to_markdown) ++ (" |".data)
  | .childPage _ title => arrowStr ++ (" [[".data) ++ title ++ ("]]".data)
  | .linkToPage pageId =>
    match pageMap.lookup pageId with
    | some title => arrowStr ++ (" [[".data) ++ title ++ ("]]".data)
    | none => arrowStr ++ (" [Linked Page](".data) ++ pageId ++ [')']
  | .other btype => ("<!-- Unsupported block type: ".data) ++ btype ++ (" -->".data)

/-- The synthesized all-dash separator row:
`"| " + " | ".join(["---"] * num_cols) + " |"` (notion_to_markdown.py,
line 372). -/
def sepLine (numCols : Nat) : Str :=
  ("| ".data) ++ List.intercalate (" | ".data) (List.replicate numCols ("---".data)) ++ (" |".data)

/-- The page-links map built by `download_from_notion` (lines 348-351) from
every `child_page` block. -/
def buildPageLinks (blocks : List DBlock) : List (Str × Str) :=
  blocks.filterMap fun b =>
    match b with
    | .childPage i t => some (i, t)
    | _ => none

/-- The markdown-line loop of `download_from_notion` (notion_to_markdown.py,
lines 355-379), with its `in_table` / `table_row_count` state: a `table`
block arms table mode, a `table_row` in table mode renders as a row line with
the synthesized separator appended after the first row, any other block
disarms table mode and renders normally (empty renderings are dropped), and a
stray `table_row` outside table mode falls through every branch and is
skipped. -/
def decodeLines (pageMap : List (Str × Str)) : Bool → Nat → List DBlock → List Str
  | _, _, [] => []
  | inTable, rowCount, b :: bs =>
    match b with
    | .table => decodeLines pageMap true 0 bs
    | .tableRow cells =>
      if inTable then
        let md := block_to_markdown pageMap (.tableRow cells)
        if md.isEmpty then decodeLines pageMap true rowCount bs
        else
          md :: (if rowCount == 0 then [sepLine cells.length] else [])
            ++ decodeLines pageMap true (rowCount + 1) bs
      else decodeLines pageMap inTable rowCount bs
    | _ =>
      let md := block_to_markdown pageMap b
      if md.isEmpty then decodeLines pageMap false rowCount bs
      else md :: decodeLines pageMap false rowCount bs

/-- The markdown body lines produced by `download_from_notion` for a fetched
block list. -/
def download_lines (blocks : List DBlock) : List Str :=
  decodeLines (buildPageLinks blocks) false 0 blocks

end NtMd

/-- Whether an encoded block is a table block. -/
def isTableB : Block → Bool
  | .table _ _ => true
  | _ => false

/-- Whether an encoded block is a paragraph block. -/
def isParaB : Block → Bool
  | .paragraph _ => true
  | _ => false

/-- Whether an encoded block is a quote block. -/
def isQuoteB : Block → Bool
  | .quote _ => true
  | _ => false

/-- The children rows of a table block (empty for other blocks). -/
def tableChildrenOf : Block → List TableRow
  | .table _ ch => ch
  | _ => []

/-- Modelled from the spec's words for the refinement comparison of C5: the
line classification as "an ordered list of pattern-predicate pairs evaluated
in documented priority order", in the amended order (heading → fenced code →
table → divider → quote → bulleted → checklist → numbered → paragraph, blank
lines first). -/
def lineKindPreds : List (LineKind × (Str → Option Str → Bool)) :=
  [ (.blank, fun line _ => line.isEmpty)
  , (.h1, fun line _ => ("# ".data).isPrefixOf line)
  , (.h2, fun line _ => ("## ".data).isPrefixOf line)
  , (.h3, fun line _ => ("### ".data).isPrefixOf line)
  , (.fence, fun line _ => fenceChars.isPrefixOf line)
  , (.table, fun line next =>
      line.contains '|' && (match next with | some n => n.contains '|' | none => false))
  , (.divider, fun line _ => pyStrip line == ("---".data))
  , (.quote, fun line _ => ("> ".data).isPrefixOf line)
  , (.bulleted, fun line _ => ("- ".data).isPrefixOf line && !(("- [".data).isPrefixOf line))
  , (.todo, fun line _ => ("- [".data).isPrefixOf line)
  , (.numbered, fun line _ => (numberedPrefixLen line).isSome) ]

/-- First matching kind in an ordered pattern-predicate list (default:
paragraph). -/
def firstKind (line : Str) (next : Option Str) :
    List (LineKind × (Str → Option Str → Bool)) → LineKind
  | [] => .para
  | (k, p) :: rest => if p line next then k else firstKind line next rest

/-- The spec-style classification evaluated over `lineKindPreds`. -/
def specClassify (line : Str) (next : Option Str) : LineKind :=
  firstKind line next lineKindPreds

/-! ## Shared helper lemmas -/

theorem isPrefixOf_append_self (l r : Str) : l.isPrefixOf (l ++ r) = true := by
  rw [List.isPrefixOf_iff_prefix]
  exact List.prefix_append l r

theorem splitFirst_append_self (sep r : Str) (h : sep ≠ []) :
    splitFirst sep (sep ++ r) = some ([], r) := by
  cases sep with
  | nil => exact absurd rfl h
  | cons c cs =>
    rw [List.cons_append, splitFirst]
    rw [show (c :: (cs ++ r)) = (c :: cs) ++ r from rfl]
    rw [isPrefixOf_append_self]
    simp [List.drop_left]

theorem splitFirst_eq_none_of_hasSub_false (sep s : Str) (h : hasSub sep s = false) :
    splitFirst sep s = none := by
  unfold hasSub at h
  cases hs : splitFirst sep s with
  | none => rfl
  | some p => rw [hs] at h; simp at h

/-! ## C9 — `extract_page_id` normalisation -/

/-- C9 counterexample: a bare 32-hex-character id (no `notion.so` in it) is
returned unchanged by `extract_page_id`, not normalised to the 8-4-4-4-12
hyphenated form the claim requires. -/
theorem bare_id_not_hyphenated :
    MdUp.extract_page_id ("2bfc95e7d72e816486a5cfb9a97fa8c9".data) =
      ("2bfc95e7d72e816486a5cfb9a97fa8c9".data) ∧
    MdUp.extract_page_id ("2bfc95e7d72e816486a5cfb9a97fa8c9".data) ≠
      ("2bfc95e7-d72e-8164-86a5-cfb9a97fa8c9".data) := by
  constructor
  · decide
  · decide

/-- C9 amended: `extract_page_id` normalises only inputs containing
`"notion.so"` — a URL containing a bare 32-hex id is extracted and
hyphenated, a URL containing an already-hyphenated id keeps it — while every
input without `"notion.so"` (in particular a bare id) is returned unchanged. -/
theorem extract_page_id_amended :
    (∀ s : Str, hasSub ("notion.so".data) s = false → MdUp.extract_page_id s = s) ∧
    MdUp.extract_page_id ("https://www.notion.so/My-Page-2bfc95e7d72e816486a5cfb9a97fa8c9".data) =
      ("2bfc95e7-d72e-8164-86a5-cfb9a97fa8c9".data) ∧
    MdUp.extract_page_id ("https://www.notion.so/2bfc95e7-d72e-8164-86a5-cfb9a97fa8c9".data) =
      ("2bfc95e7-d72e-8164-86a5-cfb9a97fa8c9".data) := by
  refine ⟨fun s h => ?_, by decide, by decide⟩
  unfold MdUp.extract_page_id
  simp [h]

/-- C9 amended, witness: the unchanged-input case at a concrete bare id. -/
theorem extract_page_id_amended_witness :
    MdUp.extract_page_id ("2bfc95e7d72e816486a5cfb9a97fa8c9".data) =
      ("2bfc95e7d72e816486a5cfb9a97fa8c9".data) :=
  extract_page_id_amended.1 _ (by decide)

/-! ## C10 — `parse_frontmatter` without a closing marker -/

/-- C10 counterexample: `"---\nx---\ny"` starts with the marker line and
contains no second marker *line*, yet `parse_frontmatter` (which splits on
the *substring* `"---\n"`) does not return the whole input as the body. -/
theorem frontmatter_marker_substring_counterexample :
    (splitChar '\n' ("---\nx---\ny".data)).head? = some ("---".data) ∧
    ((splitChar '\n' ("---\nx---\ny".data)).drop 1).all
      (fun l => !(l == ("---".data))) = true ∧
    MdUp.parse_frontmatter ("---\nx---\ny".data) ≠ ([], ("---\nx---\ny".data)) ∧
    MdUp.parse_frontmatter ("---\nx---\ny".data) = ([], ("y".data)) := by
  refine ⟨by decide, by decide, by decide, by decide⟩

/-- C10 amended: for every input that starts with `"---\n"` and contains no
*second occurrence of the substring* `"---\n"` (rather than: no second marker
line), `parse_frontmatter` returns empty metadata and the entire unmodified
input as the body.  (The embedding is a total function, so it never raises.) -/
theorem frontmatter_no_second_marker (s : Str)
    (h1 : ("---\n".data).isPrefixOf s = true)
    (h2 : hasSub ("---\n".data) (s.drop 4) = false) :
    MdUp.parse_frontmatter s = ([], s) := by
  obtain ⟨t, rfl⟩ := List.isPrefixOf_iff_prefix.mp h1
  have hdrop : List.drop 4 ((("---\n".data) : Str) ++ t) = t := by
    have h4 : (("---\n".data) : Str).length = 4 := rfl
    rw [← h4]
    exact List.drop_left _ _
  rw [hdrop] at h2
  unfold MdUp.parse_frontmatter pySplit2
  rw [isPrefixOf_append_self, splitFirst_append_self _ _ (by decide)]
  simp [splitFirst_eq_none_of_hasSub_false _ _ h2]

/-- C10 amended, witness. -/
theorem frontmatter_no_second_marker_witness :
    MdUp.parse_frontmatter ("---\nhello: world".data) = ([], ("---\nhello: world".data)) :=
  frontmatter_no_second_marker _ (by decide) (by decide)

/-! ## C1 — frontmatter split/join counterexample -/

/-- C1 counterexample: re-serialising the parse of `"---\na: b\n---\nc"`
yields `"---\na: b\n---\n\nc"` (a blank line is inserted after the closing
marker), so `join (split D) = D` fails on this `D` even though its only
metadata key contains no colon or newline. -/
theorem frontmatter_join_split_not_identity :
    MdUp.joinFrontmatter (MdUp.parse_frontmatter ("---\na: b\n---\nc".data)).1
        (MdUp.parse_frontmatter ("---\na: b\n---\nc".data)).2
      = ("---\na: b\n---\n\nc".data) ∧
    MdUp.joinFrontmatter (MdUp.parse_frontmatter ("---\na: b\n---\nc".data)).1
        (MdUp.parse_frontmatter ("---\na: b\n---\nc".data)).2
      ≠ ("---\na: b\n---\nc".data) := by
  constructor <;> decide

/-! ## C5 — line-classification precedence counterexample -/

/-- C5 counterexample: on `"> a | b\n> c | d"` both quote lines contain the
column separator, and the encoder consumes them as one table block — no quote
block is emitted — because the table check precedes the quote check, contrary
to the claimed precedence order. -/
theorem quote_pipe_classified_as_table :
    MdUp.markdown_to_notion_blocks 2000 ("> a | b\n> c | d".data) =
      [Block.table 2 [[[{ content := ("> a".data) }], [{ content := ("b".data) }]],
                      [[{ content := ("> c".data) }], [{ content := ("d".data) }]]]] ∧
    (MdUp.markdown_to_notion_blocks 2000 ("> a | b\n> c | d".data)).all
      (fun b => !isQuoteB b) = true := by
  constructor <;> decide

/-! ## C6 — deletion with protected block types -/

/-- C6: with protection enabled, `delete_all_blocks` counts every block whose
type is protected (`child_page`, `child_database`, `synced_block`) as
preserved and never deletes it; the deleted count is exactly the number of
unprotected blocks whose DELETE succeeds.  In particular, on a page with one
paragraph and one nested child-document block it deletes 1 and preserves 1. -/
theorem delete_protection_counts :
    (∀ blocks : List Script.RemoteBlock,
        Script.delete_all_blocks true blocks =
          (blocks.countP
             (fun b => !(Script.PROTECTED_BLOCK_TYPES.contains b.btype) && b.deletable),
           blocks.countP (fun b => Script.PROTECTED_BLOCK_TYPES.contains b.btype))) ∧
    Script.delete_all_blocks true
      [⟨("paragraph".data), true⟩, ⟨("child_page".data), true⟩] = (1, 1) := by
  constructor
  · intro blocks
    suffices h : ∀ (d p : Nat),
        blocks.foldl
          (fun acc b =>
            if true && Script.PROTECTED_BLOCK_TYPES.contains b.btype then (acc.1, acc.2 + 1)
            else if b.deletable then (acc.1 + 1, acc.2) else acc) (d, p) =
          (d + blocks.countP
                 (fun b => !(Script.PROTECTED_BLOCK_TYPES.contains b.btype) && b.deletable),
           p + blocks.countP (fun b => Script.PROTECTED_BLOCK_TYPES.contains b.btype)) by
      have h00 := h 0 0
      unfold Script.delete_all_blocks
      simpa using h00
    induction blocks with
    | nil => intro d p; simp
    | cons b bs ih =>
      intro d p
      simp only [Bool.true_and] at ih ⊢
      rw [List.foldl_cons, List.countP_cons, List.countP_cons]
      cases hp : Script.PROTECTED_BLOCK_TYPES.contains b.btype with
      | true =>
        simp only [hp, Bool.not_true, Bool.false_and, reduceIte, ih, Prod.mk.injEq,
          Bool.false_eq_true]
        omega
      | false =>
        cases hd : b.deletable with
        | true =>
          simp only [hp, hd, Bool.not_false, Bool.true_and, reduceIte, ih, Prod.mk.injEq,
            Bool.false_eq_true]
          omega
        | false =>
          simp only [hp, hd, Bool.not_false, Bool.and_false, reduceIte, ih, Prod.mk.injEq,
            Bool.false_eq_true]
          omega
  · decide

/-! ## C2 — relative-link resolution -/

/-- C2: a non-absolute link destination is resolved through the
link-resolution table when its base (anchor stripped) is present, and becomes
`none` (rendered as a plain, unlinked run) when absent and ending in `.md`;
the scenario line `"# Title **bold** and [link](x.md)"` with `x.md ↦
https://svc/abc` yields a heading block with runs plain `"Title "`, bold
`"bold"`, plain `" and "`, and a run linked to `https://svc/abc`; an
unresolved `.md` link renders as a plain-text run with no destination. -/
theorem inline_link_resolution :
    (∀ (linkMap : List (Str × Str)) (url : Str),
        ("http://".data).isPrefixOf url = false →
        ("https://".data).isPrefixOf url = false →
        ("mailto:".data).isPrefixOf url = false →
        (∀ v, linkMap.lookup (Script.splitHead (splitChar '#' url)) = some v →
            Script.resolve_link linkMap url = some v) ∧
        (linkMap.lookup (Script.splitHead (splitChar '#' url)) = none →
         (".md".data).isSuffixOf (Script.splitHead (splitChar '#' url)) = true →
            Script.resolve_link linkMap url = none)) ∧
    Script.markdown_to_notion_blocks [(("x.md".data), ("https://svc/abc".data))]
        ("# Title **bold** and [link](x.md)".data) =
      [Block.heading1
        [ { content := ("Title ".data) }
        , { content := ("bold".data), annotations := { bold := true } }
        , { content := (" and ".data) }
        , { content := ("link".data), link := some ("https://svc/abc".data) } ]] ∧
    Script.parse_markdown_formatting [] ("before [link](y.md) after".data) =
      [ { content := ("before ".data) }
      , { content := ("link".data) }
      , { content := (" after".data) } ] := by
  refine ⟨fun linkMap url h1 h2 h3 => ⟨fun v hv => ?_, fun hn hmd => ?_⟩, by decide, by decide⟩
  · unfold Script.resolve_link
    simp [h1, h2, h3, hv]
  · unfold Script.resolve_link
    simp [h1, h2, h3, hn, hmd]

/-- C2 witness: resolution and plain-text fallback at concrete inputs. -/
theorem inline_link_resolution_witness :
    Script.resolve_link [(("x.md".data), ("https://svc/abc".data))] ("x.md".data) =
      some ("https://svc/abc".data) ∧
    Script.resolve_link [] ("y.md".data) = none :=
  ⟨(inline_link_resolution.1 _ _ (by decide) (by decide) (by decide)).1 _ (by decide),
   (inline_link_resolution.1 _ _ (by decide) (by decide) (by decide)).2 (by decide) (by decide)⟩

/-! ## C4 — transport retry policy -/

theorem apiLoop_persistent_429 (responses : Nat → Outcome) (N : Nat) (d : ℚ)
    (h : ∀ k, responses k = .http 429) :
    ∀ (fuel a : Nat),
      apiLoop responses N d a fuel (some (.http 429)) =
        { result := .fatalHttp 429, attempts := fuel,
          waits := (List.range fuel).map (fun i : Nat => d * ((a : ℚ) + (i : ℚ) + 1)) } := by
  intro fuel
  induction fuel with
  | zero => intro a; rfl
  | succ fuel ih =>
    intro a
    simp only [apiLoop, h a, reduceIte]
    rw [ih (a + 1)]
    have hw : (d * ((a : ℚ) + 1)) :: (List.range fuel).map
          (fun i : Nat => d * (((a + 1 : Nat) : ℚ) + (i : ℚ) + 1)) =
        (List.range (fuel + 1)).map (fun i : Nat => d * ((a : ℚ) + (i : ℚ) + 1)) := by
      rw [List.range_succ_eq_map, List.map_cons, List.map_map]
      congr 1
      · push_cast
        ring
      · refine List.map_congr_left (fun i _ => ?_)
        simp only [Function.comp]
        push_cast
        ring
    simp only [RunTrace.mk.injEq, true_and]
    exact hw

theorem apiLoop_persistent_http (responses : Nat → Outcome) (N : Nat) (d : ℚ)
    (c : Nat) (hc : c ≠ 429) (h : ∀ k, responses k = .http c) :
    ∀ (fuel : Nat) (a : Nat) (e : Option Outcome), 1 ≤ fuel → a + fuel = N →
      apiLoop responses N d a fuel e =
        { result := .fatalHttp c, attempts := fuel, waits := List.replicate (fuel - 1) d } := by
  intro fuel
  induction fuel with
  | zero => intro a e h1 _; omega
  | succ fuel ih =>
    intro a e _ hsum
    simp only [apiLoop, h a]
    rw [if_neg hc]
    by_cases hfuel : fuel = 0
    · subst hfuel
      rw [if_neg (by omega)]
      rfl
    · rw [if_pos (by omega), ih (a + 1) _ (by omega) (by omega)]
      simp only [RunTrace.mk.injEq, true_and]
      rw [show fuel + 1 - 1 = (fuel - 1) + 1 from by omega, List.replicate_succ]

theorem apiLoop_persistent_exc (responses : Nat → Outcome) (N : Nat) (d : ℚ)
    (h : ∀ k, responses k = .exc) :
    ∀ (fuel : Nat) (a : Nat) (e : Option Outcome), 1 ≤ fuel → a + fuel = N →
      apiLoop responses N d a fuel e =
        { result := .fatalExc, attempts := fuel, waits := List.replicate (fuel - 1) d } := by
  intro fuel
  induction fuel with
  | zero => intro a e h1 _; omega
  | succ fuel ih =>
    intro a e _ hsum
    simp only [apiLoop, h a]
    by_cases hfuel : fuel = 0
    · subst hfuel
      rw [if_neg (by omega)]
      rfl
    · rw [if_pos (by omega), ih (a + 1) _ (by omega) (by omega)]
      simp only [RunTrace.mk.injEq, true_and]
      rw [show fuel + 1 - 1 = (fuel - 1) + 1 from by omega, List.replicate_succ]

theorem apiLoop_success_stops (responses : Nat → Outcome) (N : Nat) (d : ℚ)
    (K v : Nat) (hK : responses K = .ok v) :
    ∀ (fuel : Nat) (a : Nat) (e : Option Outcome), a + fuel = N → a ≤ K → K < N →
      (apiLoop responses N d a fuel e).attempts ≤ K + 1 - a ∧
      ((apiLoop responses N d a fuel e).result).isSuccess = true := by
  intro fuel
  induction fuel with
  | zero => intro a e hsum ha hKN; omega
  | succ fuel ih =>
    intro a e hsum ha hKN
    by_cases hak : a = K
    · subst hak
      simp only [apiLoop, hK]
      exact ⟨by omega, rfl⟩
    · have haK : a < K := by omega
      simp only [apiLoop]
      cases hra : responses a with
      | ok w =>
        dsimp only
        exact ⟨by omega, rfl⟩
      | http c =>
        dsimp only
        by_cases hc : c = 429
        · subst hc
          rw [if_pos rfl]
          have hrec := ih (a + 1) (some (.http 429)) (by omega) (by omega) hKN
          have h1 := hrec.1
          have h2 := hrec.2
          dsimp only
          exact ⟨by omega, h2⟩
        · rw [if_neg hc, if_pos (by omega)]
          have hrec := ih (a + 1) (some (.http c)) (by omega) (by omega) hKN
          have h1 := hrec.1
          have h2 := hrec.2
          dsimp only
          exact ⟨by omega, h2⟩
      | exc =>
        dsimp only
        rw [if_pos (by omega)]
        have hrec := ih (a + 1) (some .exc) (by omega) (by omega) hKN
        have h1 := hrec.1
        have h2 := hrec.2
        dsimp only
        exact ⟨by omega, h2⟩

/-- C4: with `retry_attempts = N ≥ 1`: under persistent 429 responses the
client makes exactly `N` attempts, sleeping `retry_delay * (attempt+1)` after
each rate-limited attempt (the last included), then surfaces the 429 as
fatal; under a persistent non-429 HTTP error or any other persistent
exception it makes exactly `N` attempts with a fixed `retry_delay` wait
between consecutive attempts (`N-1` waits) and surfaces the last error; and
when attempt `K < N` succeeds, at most `K+1` attempts occur and the result is
the successful response. -/
theorem retry_policy_attempts (N : Nat) (d : ℚ) (hN : 1 ≤ N) :
    (∀ responses : Nat → Outcome, (∀ k, responses k = .http 429) →
        make_api_request responses N d =
          { result := .fatalHttp 429, attempts := N,
            waits := (List.range N).map (fun i : Nat => d * ((i : ℚ) + 1)) }) ∧
    (∀ (responses : Nat → Outcome) (c : Nat), c ≠ 429 → (∀ k, responses k = .http c) →
        make_api_request responses N d =
          { result := .fatalHttp c, attempts := N, waits := List.replicate (N - 1) d }) ∧
    (∀ responses : Nat → Outcome, (∀ k, responses k = .exc) →
        make_api_request responses N d =
          { result := .fatalExc, attempts := N, waits := List.replicate (N - 1) d }) ∧
    (∀ (responses : Nat → Outcome) (K v : Nat), K < N → responses K = .ok v →
        (make_api_request responses N d).attempts ≤ K + 1 ∧
        ((make_api_request responses N d).result).isSuccess = true) := by
  refine ⟨?_, ?_, ?_, ?_⟩
  · intro responses h
    obtain ⟨m, rfl⟩ : ∃ m, N = m + 1 := ⟨N - 1, by omega⟩
    unfold make_api_request
    simp only [apiLoop, h 0, reduceIte]
    rw [apiLoop_persistent_429 responses (m + 1) d h m 1]
    simp only [RunTrace.mk.injEq, true_and]
    rw [List.range_succ_eq_map, List.map_cons, List.map_map]
    congr 1
    refine List.map_congr_left (fun i _ => ?_)
    simp only [Function.comp_apply]
    push_cast
    ring
  · intro responses c hc h
    exact apiLoop_persistent_http responses N d c hc h N 0 none hN (by omega)
  · intro responses h
    exact apiLoop_persistent_exc responses N d h N 0 none hN (by omega)
  · intro responses K v hKN hK
    exact apiLoop_success_stops responses N d K v hK N 0 none (by omega) (by omega) hKN

/-- C4 witness: three attempts at delay 2 under persistent 429 give waits
2, 4, 6; success on attempt index 1 stops after two attempts. -/
theorem retry_policy_attempts_witness :
    1 ≤ 3 ∧
    make_api_request (fun _ => .http 429) 3 2 =
      { result := .fatalHttp 429, attempts := 3, waits := [2, 4, 6] } ∧
    (make_api_request (fun k => if k = 1 then .ok 7 else .http 429) 3 2).attempts ≤ 2 :=
  ⟨by decide,
   by
     rw [(retry_policy_attempts 3 2 (by decide)).1 (fun _ => .http 429) (fun k => rfl)]
     norm_num [List.range_succ],
   ((retry_policy_attempts 3 2 (by decide)).2.2.2 _ 1 7 (by decide) rfl).1⟩

/-! ## C3 — table chunking -/

theorem isTableB_contMarker (p : Nat) : isTableB (contMarker p) = false := rfl

theorem isParaB_contMarker (p : Nat) : isParaB (contMarker p) = true := rfl

theorem chunkTablesAux_blocks (numCols : Nat) (hdr : TableRow) :
    ∀ (fuel : Nat) (data : List TableRow) (p : Nat), data.length ≤ fuel →
      ∀ b ∈ chunkTablesAux numCols hdr fuel data p,
        (isTableB b = true → (tableChildrenOf b).head? = some hdr) ∧
        (isTableB b = true ∨ isParaB b = true) := by
  intro fuel
  induction fuel with
  | zero =>
    intro data p hle b hb
    simp [chunkTablesAux] at hb
  | succ fuel ih =>
    intro data p hle b hb
    simp only [chunkTablesAux] at hb
    by_cases hrest : (data.drop 99).isEmpty
    · simp only [hrest, if_true, List.mem_singleton] at hb
      subst hb
      exact ⟨fun _ => rfl, Or.inl rfl⟩
    · simp only [hrest, Bool.false_eq_true, if_false, List.mem_cons] at hb
      rcases hb with hb | hb | hb
      · subst hb
        exact ⟨fun _ => rfl, Or.inl rfl⟩
      · subst hb
        refine ⟨fun hc => ?_, Or.inr (isParaB_contMarker _)⟩
        rw [isTableB_contMarker] at hc
        cases hc
      · refine ih (data.drop 99) (p + 1) ?_ b hb
        rw [List.length_drop]
        omega

theorem chunkTablesAux_rows (numCols : Nat) (hdr : TableRow) :
    ∀ (fuel : Nat) (data : List TableRow) (p : Nat), data.length ≤ fuel →
      (((chunkTablesAux numCols hdr fuel data p).filter isTableB).map
        (fun b => (tableChildrenOf b).drop 1)).flatten = data := by
  intro fuel
  induction fuel with
  | zero =>
    intro data p hle
    have : data = [] := List.length_eq_zero.mp (by omega)
    subst this
    rfl
  | succ fuel ih =>
    intro data p hle
    simp only [chunkTablesAux]
    by_cases hrest : (data.drop 99).isEmpty
    · have hlen : data.length ≤ 99 := by
        rw [List.isEmpty_iff] at hrest
        have := List.drop_eq_nil_iff.mp hrest
        omega
      simp only [hrest, if_true, List.filter_singleton]
      rw [show isTableB (Block.table numCols (hdr :: data.take 99)) = true from rfl]
      simp [List.take_of_length_le hlen]
      rfl
    · simp only [hrest, Bool.false_eq_true, if_false]
      rw [List.filter_cons, List.filter_cons]
      rw [show isTableB (Block.table numCols (hdr :: data.take 99)) = true from rfl,
          isTableB_contMarker]
      simp only [if_true, Bool.false_eq_true, if_false, List.map_cons, List.flatten_cons]
      rw [ih (data.drop 99) (p + 1) (by rw [List.length_drop]; omega)]
      show List.drop 1 (hdr :: data.take 99) ++ data.drop 99 = data
      rw [List.drop_one, List.tail_cons, List.take_append_drop]

theorem chunkTablesAux_markers (numCols : Nat) (hdr : TableRow) :
    ∀ (fuel : Nat) (data : List TableRow) (p : Nat), data.length ≤ fuel → 1 ≤ data.length →
      ((chunkTablesAux numCols hdr fuel data p).filter isParaB).length =
        (data.length + 98) / 99 - 1 := by
  intro fuel
  induction fuel with
  | zero => intro data p hle h1; omega
  | succ fuel ih =>
    intro data p hle h1
    simp only [chunkTablesAux]
    by_cases hrest : (data.drop 99).isEmpty
    · have hlen : data.length ≤ 99 := by
        rw [List.isEmpty_iff] at hrest
        have := List.drop_eq_nil_iff.mp hrest
        omega
      simp only [hrest, if_true]
      rw [show List.filter isParaB [Block.table numCols (hdr :: data.take 99)] = []
            from rfl]
      rw [List.length_nil]
      have hone : (data.length + 98) / 99 = 1 :=
        Nat.div_eq_of_lt_le (by omega) (by omega)
      omega
    · have hlen : 100 ≤ data.length := by
        rw [List.isEmpty_iff] at hrest
        by_contra hcon
        exact hrest (List.drop_eq_nil_iff.mpr (by omega))
      simp only [hrest, Bool.false_eq_true, if_false]
      rw [List.filter_cons, List.filter_cons]
      rw [show isParaB (Block.table numCols (hdr :: data.take 99)) = false from rfl,
          isParaB_contMarker]
      simp only [Bool.false_eq_true, if_false, if_true, List.length_cons]
      rw [ih (data.drop 99) (p + 1) (by rw [List.length_drop]; omega)
            (by rw [List.length_drop]; omega)]
      rw [List.length_drop]
      have hq : (data.length - 99 + 98) = data.length - 1 := by omega
      rw [hq]
      have hsplit : (data.length + 98) / 99 = (data.length - 1) / 99 + 1 := by
        rw [show data.length + 98 = (data.length - 1) + 99 from by omega]
        exact Nat.add_div_right _ (by norm_num)
      have hge : 1 ≤ (data.length - 1) / 99 :=
        Nat.one_le_div_iff (by norm_num) |>.mpr (by omega)
      omega

/-- C3: a parsed table with more rows than the 100-row cap is re-emitted as
table chunks, each re-headed with the original header row; the concatenation
of the chunks' data rows (headers excluded) equals the original data rows in
order; every emitted block is a table chunk or a continuation-marker
paragraph; and exactly `ceil((rows-1)/99) - 1 = (rows-1+98)/99 - 1`
continuation paragraphs are emitted. -/
theorem table_chunking_preserves_rows (numCols : Nat) (children : List TableRow)
    (h : children.length > maxTableRows) :
    (((emitTableBlocks numCols children).filter isTableB).map
        (fun b => (tableChildrenOf b).drop 1)).flatten = children.drop 1 ∧
    (∀ b ∈ emitTableBlocks numCols children,
        (isTableB b = true → (tableChildrenOf b).head? = children.head?) ∧
        (isTableB b = true ∨ isParaB b = true)) ∧
    ((emitTableBlocks numCols children).filter isParaB).length =
      (children.length - 1 + 98) / 99 - 1 := by
  unfold maxTableRows at h
  cases children with
  | nil => simp at h
  | cons hd tl =>
    have hlen : 100 ≤ tl.length := by
      simp only [List.length_cons] at h
      omega
    unfold emitTableBlocks
    rw [if_neg (by unfold maxTableRows; simp only [List.length_cons]; omega)]
    refine ⟨?_, ?_, ?_⟩
    · rw [chunkTablesAux_rows numCols hd tl.length tl 1 le_rfl]
      rfl
    · exact chunkTablesAux_blocks numCols hd tl.length tl 1 le_rfl
    · rw [chunkTablesAux_markers numCols hd tl.length tl 1 le_rfl (by omega)]
      simp only [List.length_cons]
      congr 1

/-- C3 witness: a 150-row table (one header + 149 data rows beyond the cap)
yields exactly one continuation marker. -/
theorem table_chunking_preserves_rows_witness :
    (List.replicate 150 ([[{ content := ("c".data) }]] : TableRow)).length > maxTableRows ∧
    ((emitTableBlocks 1 (List.replicate 150 [[{ content := ("c".data) }]])).filter
        isParaB).length = 1 := by
  have hgt : (List.replicate 150 ([[{ content := ("c".data) }]] : TableRow)).length >
      maxTableRows := by
    simp [maxTableRows]
  refine ⟨hgt, ?_⟩
  rw [(table_chunking_preserves_rows 1 _ hgt).2.2]
  simp

/-! ## C8 — synthesized table separator on decode -/

theorem tableRow_render_ne_empty (pageMap : List (Str × Str)) (cells : List (List RichText)) :
    (NtMd.block_to_markdown pageMap (NtMd.DBlock.tableRow cells)).isEmpty = false := rfl

theorem decodeLines_false_count (pageMap : List (Str × Str)) :
    ∀ (bs : List NtMd.DBlock) (c1 c2 : Nat),
      NtMd.decodeLines pageMap false c1 bs = NtMd.decodeLines pageMap false c2 bs := by
  intro bs
  induction bs with
  | nil => intro c1 c2; rfl
  | cons b bs ih =>
    intro c1 c2
    cases b with
    | table => rfl
    | tableRow cells =>
      simp only [NtMd.decodeLines, Bool.false_eq_true, if_false]
      exact ih c1 c2
    | paragraph rt => simp only [NtMd.decodeLines]; rw [ih c1 c2]
    | heading1 rt => simp only [NtMd.decodeLines]; rw [ih c1 c2]
    | heading2 rt => simp only [NtMd.decodeLines]; rw [ih c1 c2]
    | heading3 rt => simp only [NtMd.decodeLines]; rw [ih c1 c2]
    | bulleted rt => simp only [NtMd.decodeLines]; rw [ih c1 c2]
    | numbered rt => simp only [NtMd.decodeLines]; rw [ih c1 c2]
    | todo rt checked => simp only [NtMd.decodeLines]; rw [ih c1 c2]
    | code rt lang => simp only [NtMd.decodeLines]; rw [ih c1 c2]
    | quote rt => simp only [NtMd.decodeLines]; rw [ih c1 c2]
    | callout rt icon => simp only [NtMd.decodeLines]; rw [ih c1 c2]
    | divider => simp only [NtMd.decodeLines]; rw [ih c1 c2]
    | toggle rt => simp only [NtMd.decodeLines]; rw [ih c1 c2]
    | childPage i t => simp only [NtMd.decodeLines]; rw [ih c1 c2]
    | linkToPage pid => simp only [NtMd.decodeLines]; rw [ih c1 c2]
    | other t => simp only [NtMd.decodeLines]; rw [ih c1 c2]

theorem decodeLines_true_of_not_row (pageMap : List (Str × Str))
    (b : NtMd.DBlock) (bs : List NtMd.DBlock) (cnt : Nat)
    (hb : ∀ cells, b ≠ NtMd.DBlock.tableRow cells) :
    NtMd.decodeLines pageMap true cnt (b :: bs) =
      NtMd.decodeLines pageMap false 0 (b :: bs) := by
  cases b with
  | table => rfl
  | tableRow cells => exact absurd rfl (hb cells)
  | paragraph rt =>
    simp only [NtMd.decodeLines]
    rw [decodeLines_false_count pageMap bs cnt 0]
  | heading1 rt =>
    simp only [NtMd.decodeLines]
    rw [decodeLines_false_count pageMap bs cnt 0]
  | heading2 rt =>
    simp only [NtMd.decodeLines]
    rw [decodeLines_false_count pageMap bs cnt 0]
  | heading3 rt =>
    simp only [NtMd.decodeLines]
    rw [decodeLines_false_count pageMap bs cnt 0]
  | bulleted rt =>
    simp only [NtMd.decodeLines]
    rw [decodeLines_false_count pageMap bs cnt 0]
  | numbered rt =>
    simp only [NtMd.decodeLines]
    rw [decodeLines_false_count pageMap bs cnt 0]
  | todo rt checked =>
    simp only [NtMd.decodeLines]
    rw [decodeLines_false_count pageMap bs cnt 0]
  | code rt lang =>
    simp only [NtMd.decodeLines]
    rw [decodeLines_false_count pageMap bs cnt 0]
  | quote rt =>
    simp only [NtMd.decodeLines]
    rw [decodeLines_false_count pageMap bs cnt 0]
  | callout rt icon =>
    simp only [NtMd.decodeLines]
    rw [decodeLines_false_count pageMap bs cnt 0]
  | divider =>
    simp only [NtMd.decodeLines]
    rw [decodeLines_false_count pageMap bs cnt 0]
  | toggle rt =>
    simp only [NtMd.decodeLines]
    rw [decodeLines_false_count pageMap bs cnt 0]
  | childPage i t =>
    simp only [NtMd.decodeLines]
    rw [decodeLines_false_count pageMap bs cnt 0]
  | linkToPage pid =>
    simp only [NtMd.decodeLines]
    rw [decodeLines_false_count pageMap bs cnt 0]
  | other t =>
    simp only [NtMd.decodeLines]
    rw [decodeLines_false_count pageMap bs cnt 0]

theorem decodeLines_table_rows (pageMap : List (Str × Str)) :
    ∀ (rows : List (List (List RichText))) (rest : List NtMd.DBlock) (c : Nat),
      (∀ cells, rest.head? ≠ some (NtMd.DBlock.tableRow cells)) →
      NtMd.decodeLines pageMap true (c + 1) (rows.map NtMd.DBlock.tableRow ++ rest) =
        rows.map (fun r => NtMd.block_to_markdown pageMap (NtMd.DBlock.tableRow r)) ++
          NtMd.decodeLines pageMap false 0 rest := by
  intro rows
  induction rows with
  | nil =>
    intro rest c hrest
    simp only [List.map_nil, List.nil_append]
    cases rest with
    | nil => rfl
    | cons b bs =>
      refine decodeLines_true_of_not_row pageMap b bs (c + 1) (fun cells hb => ?_)
      subst hb
      exact hrest cells rfl
  | cons r rs ih =>
    intro rest c hrest
    simp only [List.map_cons, List.cons_append, NtMd.decodeLines]
    rw [tableRow_render_ne_empty]
    simp only [Bool.false_eq_true, if_false, if_true, reduceIte]
    rw [show ((c + 1 : Nat) == 0) = false from rfl]
    simp only [Bool.false_eq_true, if_false, reduceIte, List.nil_append, List.append_eq]
    rw [ih rest (c + 1) hrest]

/-- C8: in the decode loop, a `table` block followed by its row blocks
renders each row as a pipe-delimited line (`| cell | … |`), and exactly one
synthesized all-dash separator line (one `---` cell per column of the first
row) is inserted immediately after the first row; everything after the table
decodes from a fresh state. -/
theorem table_separator_synthesized (pageMap : List (Str × Str))
    (r0 : List (List RichText)) (rows : List (List (List RichText)))
    (rest : List NtMd.DBlock)
    (hrest : ∀ cells, rest.head? ≠ some (NtMd.DBlock.tableRow cells)) :
    NtMd.decodeLines pageMap false 0
        (NtMd.DBlock.table :: (r0 :: rows).map NtMd.DBlock.tableRow ++ rest) =
      NtMd.block_to_markdown pageMap (NtMd.DBlock.tableRow r0)
        :: NtMd.sepLine r0.length
        :: (rows.map (fun r => NtMd.block_to_markdown pageMap (NtMd.DBlock.tableRow r))
            ++ NtMd.decodeLines pageMap false 0 rest) := by
  simp only [List.map_cons, List.cons_append]
  rw [show NtMd.decodeLines pageMap false 0
        (NtMd.DBlock.table :: (NtMd.DBlock.tableRow r0 ::
          (rows.map NtMd.DBlock.tableRow ++ rest))) =
      NtMd.decodeLines pageMap true 0
        (NtMd.DBlock.tableRow r0 :: (rows.map NtMd.DBlock.tableRow ++ rest)) from rfl]
  simp only [NtMd.decodeLines]
  rw [tableRow_render_ne_empty]
  simp only [Bool.false_eq_true, if_false, reduceIte]
  rw [show ((0 : Nat) == 0) = true from rfl]
  simp only [if_true, reduceIte]
  rw [decodeLines_table_rows pageMap rows rest 0 hrest]
  rfl

/-- C8 witness: a concrete two-row table followed by a paragraph. -/
theorem table_separator_synthesized_witness :
    NtMd.decodeLines [] false 0
        [ NtMd.DBlock.table
        , NtMd.DBlock.tableRow [[{ content := ("h1".data) }], [{ content := ("h2".data) }]]
        , NtMd.DBlock.tableRow [[{ content := ("a".data) }], [{ content := ("b".data) }]]
        , NtMd.DBlock.paragraph [{ content := ("after".data) }] ] =
      [ ("| h1 | h2 |".data), ("| --- | --- |".data), ("| a | b |".data), ("after".data) ] := by
  have h := table_separator_synthesized []
      [[{ content := ("h1".data) }], [{ content := ("h2".data) }]]
      [[[{ content := ("a".data) }], [{ content := ("b".data) }]]]
      [NtMd.DBlock.paragraph [{ content := ("after".data) }]]
      (fun cells => by simp)
  rw [show ([ NtMd.DBlock.table
        , NtMd.DBlock.tableRow [[{ content := ("h1".data) }], [{ content := ("h2".data) }]]
        , NtMd.DBlock.tableRow [[{ content := ("a".data) }], [{ content := ("b".data) }]]
        , NtMd.DBlock.paragraph [{ content := ("after".data) }] ] : List NtMd.DBlock) =
      NtMd.DBlock.table ::
        ([[[{ content := ("h1".data) }], [{ content := ("h2".data) }]],
          [[{ content := ("a".data) }], [{ content := ("b".data) }]]].map NtMd.DBlock.tableRow)
        ++ [NtMd.DBlock.paragraph [{ content := ("after".data) }]] from rfl]
  rw [h]
  decide

/-! ## C7 — code spans are atomic -/

theorem inlineScan_code_false (resolver : Str → Option Str) (bff : Bool) (maxLen : Nat) :
    ∀ (fuel : Nat) (s : Str) (r : RichText), r ∈ inlineScan resolver bff maxLen fuel s →
      r.annotations.code = false := by
  intro fuel
  induction fuel with
  | zero => intro s r hr; simp [inlineScan] at hr
  | succ fuel ih =>
    intro s r hr
    cases s with
    | nil => simp [inlineScan] at hr
    | cons c cs =>
      by_cases hc : c = '['
      · subst hc
        rw [inlineScan] at hr
        repeat' split at hr
        all_goals
          first
          | exact ih _ _ hr
          | (rcases hr with rfl | h; exacts [rfl, ih _ _ h])
          | (rcases List.mem_cons.mp hr with rfl | h; exacts [rfl, ih _ _ h])
          | simp
      · rw [inlineScan] at hr
        repeat' split at hr
        all_goals
          first
          | exact ih _ _ hr
          | (rcases hr with rfl | h; exacts [rfl, ih _ _ h])
          | (rcases List.mem_cons.mp hr with rfl | h; exacts [rfl, ih _ _ h])
          | simp [hc]
          | simp

theorem takeWhile_all_append (p : Char → Bool) (xs : Str) (y : Char) (ys : Str)
    (hxs : ∀ x ∈ xs, p x = true) (hy : p y = false) :
    (xs ++ y :: ys).takeWhile p = xs := by
  induction xs with
  | nil => simp [List.takeWhile_cons, hy]
  | cons x xt ih =>
    rw [List.cons_append, List.takeWhile_cons, hxs x (List.mem_cons_self x xt)]
    rw [ih (fun z hz => hxs z (List.mem_cons_of_mem x hz))]
    simp

theorem findCode_none (s : Str) (h : btick ∉ s) : findCode s = none := by
  induction s with
  | nil => rfl
  | cons c cs ih =>
    have hc : (c == btick) = false := by
      simp only [beq_eq_false_iff_ne, ne_eq]
      exact fun hcc => h (hcc ▸ List.mem_cons_self c cs)
    rw [findCode.eq_def]
    simp [hc, ih (fun hm => h (List.mem_cons_of_mem c hm)), findCodeStep]

theorem findCode_span (pre inner post : Str)
    (hpre : btick ∉ pre) (hin : btick ∉ inner) (hne : inner ≠ []) (hpost : btick ∉ post) :
    findCode (pre ++ btick :: (inner ++ btick :: post)) =
      some (pre, btick :: (inner ++ [btick]), post) := by
  induction pre with
  | nil =>
    have htw : (inner ++ btick :: post).takeWhile (fun d => !(d == btick)) = inner := by
      refine takeWhile_all_append _ inner btick post (fun x hx => ?_) (by simp)
      simp only [Bool.not_eq_true', beq_eq_false_iff_ne, ne_eq]
      exact fun hxb => hin (hxb ▸ hx)
    have hne2 : inner.isEmpty = false := by
      cases inner with
      | nil => exact absurd rfl hne
      | cons a l => rfl
    simp only [List.nil_append]
    rw [findCode.eq_def]
    simp [htw, hne2, List.drop_left]
  | cons c pt ih =>
    have hc : (c == btick) = false := by
      simp only [beq_eq_false_iff_ne, ne_eq]
      exact fun hcc => hpre (hcc ▸ List.mem_cons_self c pt)
    rw [List.cons_append, findCode.eq_def]
    simp [hc, ih (fun hm => hpre (List.mem_cons_of_mem c hm)), findCodeStep]

theorem reSplitCode_of_none (t : Str) (h : findCode t = none) :
    ∀ fuel, reSplitCode fuel t = [t] := by
  intro fuel
  cases fuel with
  | zero => rfl
  | succ f =>
    rw [reSplitCode.eq_def]
    simp [h]

theorem reSplitCode_span (pre inner post : Str)
    (hpre : btick ∉ pre) (hin : btick ∉ inner) (hne : inner ≠ []) (hpost : btick ∉ post) :
    ∀ fuel, 1 ≤ fuel →
      reSplitCode fuel (pre ++ btick :: (inner ++ btick :: post)) =
        [pre, btick :: (inner ++ [btick]), post] := by
  intro fuel hfuel
  cases fuel with
  | zero => omega
  | succ f =>
    rw [reSplitCode.eq_def]
    simp [findCode_span pre inner post hpre hin hne hpost,
      reSplitCode_of_none post (findCode_none post hpost) f]

theorem parseFmtCore_code_atomic (resolver : Str → Option Str) (bff : Bool) (maxLen : Nat)
    (text : Str) (r : RichText) (hr : r ∈ parseFmtCore resolver bff maxLen text)
    (hcode : r.annotations.code = true) :
    r.annotations.bold = false ∧ r.annotations.italic = false ∧
    r.annotations.strikethrough = false ∧ r.link = none := by
  simp only [parseFmtCore] at hr
  split at hr
  · rcases List.mem_singleton.mp hr with rfl
    cases hcode
  · rw [List.mem_flatten] at hr
    obtain ⟨rl, hrl, hrin⟩ := hr
    rw [List.mem_map] at hrl
    obtain ⟨part, hpart, rfl⟩ := hrl
    unfold partRuns at hrin
    split at hrin
    · cases hrin
    · split at hrin
      · rcases List.mem_singleton.mp hrin with rfl
        exact ⟨rfl, rfl, rfl, rfl⟩
      · rw [inlineScan_code_false resolver bff maxLen part.length part r hrin] at hcode
        cases hcode

theorem partRuns_code_span (resolver : Str → Option Str) (bff : Bool) (maxLen : Nat)
    (inner : Str) (hne : inner ≠ []) :
    partRuns resolver bff maxLen (btick :: (inner ++ [btick])) =
      [{ content := truncMax maxLen inner, annotations := { code := true } }] := by
  unfold partRuns
  rw [show ((btick :: (inner ++ [btick]) : Str)).isEmpty = false from rfl]
  rw [show ((btick :: (inner ++ [btick]) : Str)).head? = some btick from rfl]
  rw [show (btick :: (inner ++ [btick]) : Str) = (btick :: inner) ++ [btick] from by simp]
  rw [List.getLast?_concat]
  simp only [beq_self_eq_true, Bool.and_self, if_true, Bool.false_eq_true, if_false, reduceIte]
  rw [show (((btick :: inner) ++ [btick] : Str)).drop 1 = inner ++ [btick] from by
    rw [List.cons_append, List.drop_one, List.tail_cons]]
  rw [List.dropLast_concat]

theorem code_span_run_mem (maxLen : Nat) (pre post : Str) (h12 : 12 ≤ maxLen)
    (hpre : btick ∉ pre) (hpost : btick ∉ post) :
    ({ content := ("**not bold**".data), annotations := { code := true } } : RichText) ∈
      MdUp.parse_markdown_formatting maxLen
        (pre ++ btick :: (("**not bold**".data) ++ btick :: post)) := by
  have hinner_nb : btick ∉ ("**not bold**".data) := by decide
  have hinner_ne : ("**not bold**".data) ≠ [] := by decide
  have hfuel : 1 ≤ (pre ++ btick :: (("**not bold**".data) ++ btick :: post)).length := by
    simp [List.length_append]
    omega
  have htr : truncMax maxLen ("**not bold**".data) = ("**not bold**".data) := by
    unfold truncMax
    rw [if_neg]
    rw [show ("**not bold**".data).length = 12 from rfl]
    omega
  rw [MdUp.parse_markdown_formatting]
  simp only [parseFmtCore]
  rw [reSplitCode_span pre _ post hpre hinner_nb hinner_ne hpost _ hfuel]
  simp only [List.map_cons, List.map_nil, List.flatten_cons, List.flatten_nil,
    List.append_nil]
  rw [partRuns_code_span (fun u => some u) false maxLen _ hinner_ne, htr]
  have hmem :
      ({ content := ("**not bold**".data), annotations := { code := true } } : RichText) ∈
        partRuns (fun u => some u) false maxLen pre ++
          ([{ content := ("**not bold**".data), annotations := { code := true } }] ++
            partRuns (fun u => some u) false maxLen post) :=
    List.mem_append_right _ (List.mem_append_left _ (List.mem_singleton.mpr rfl))
  rw [if_neg]
  · exact hmem
  · simp only [List.isEmpty_iff]
    exact List.ne_nil_of_mem hmem

/-- C7: every backtick-delimited code span is emitted as a single atomic
code-annotated run.  First conjunct: any code-annotated run produced by
`parse_markdown_formatting` carries no bold, italic or strikethrough
annotation and no link, so a code span's content is never reinterpreted.
Second conjunct: for any backtick-free surrounding text, the characters
`**not bold**` placed inside backticks appear verbatim as one code run. -/
theorem code_span_atomic :
    (∀ (maxLen : Nat) (text : Str) (r : RichText),
        r ∈ MdUp.parse_markdown_formatting maxLen text →
        r.annotations.code = true →
        r.annotations.bold = false ∧ r.annotations.italic = false ∧
          r.annotations.strikethrough = false ∧ r.link = none) ∧
    (∀ (maxLen : Nat) (pre post : Str), 12 ≤ maxLen →
        btick ∉ pre → btick ∉ post →
        ({ content := ("**not bold**".data), annotations := { code := true } } : RichText) ∈
          MdUp.parse_markdown_formatting maxLen
            (pre ++ btick :: (("**not bold**".data) ++ btick :: post))) := by
  constructor
  · intro maxLen text r hr hcode
    exact parseFmtCore_code_atomic (fun u => some u) false maxLen text r hr hcode
  · intro maxLen pre post h12 hpre hpost
    exact code_span_run_mem maxLen pre post h12 hpre hpost

/-- C7 witness: concrete instance with surrounding text `a ` and ` b`. -/
theorem code_span_atomic_witness :
    12 ≤ 2000 ∧ btick ∉ ("a ".data) ∧ btick ∉ (" b".data) ∧
    ({ content := ("**not bold**".data), annotations := { code := true } } : RichText) ∈
      MdUp.parse_markdown_formatting 2000
        (("a ".data) ++ btick :: (("**not bold**".data) ++ btick :: (" b".data))) :=
  ⟨by decide, by decide, by decide,
    code_span_atomic.2 2000 ("a ".data) (" b".data) (by decide) (by decide) (by decide)⟩

theorem hasSub_tail (sub : Str) (c : Char) (s : Str) (h : hasSub sub (c :: s) = false) :
    hasSub sub s = false := by
  unfold hasSub at h ⊢
  rw [splitFirst] at h
  split at h
  · cases h
  · cases hs : splitFirst sub s with
    | none => rfl
    | some p =>
      obtain ⟨a, b⟩ := p
      rw [hs] at h
      cases h

theorem splitFirst_m_self (t : Str) :
    splitFirst ("---\n".data) (("---\n".data) ++ t) = some ([], t) := by
  rw [show (("---\n".data) ++ t : Str) = '-' :: ('-' :: '-' :: '\n' :: t) from rfl]
  rw [splitFirst]
  rw [if_pos (by simp [List.isPrefixOf])]
  rfl

theorem splitFirst_marker_boundary (t : Str) :
    ∀ (a : Str), hasSub ("---\n".data) a = false →
      (a = [] ∨ a.getLast? = some '\n') →
      splitFirst ("---\n".data) (a ++ (("---\n".data) ++ t)) = some (a, t) := by
  intro a
  induction a with
  | nil =>
    intro _ _
    rw [List.nil_append]
    exact splitFirst_m_self t
  | cons c a' ih =>
    intro hsub hlast
    have hlast' : (c :: a').getLast? = some '\n' := by
      rcases hlast with h | h
      · cases h
      · exact h
    have hsub' : hasSub ("---\n".data) a' = false := hasSub_tail _ _ _ hsub
    have hnp : ("---\n".data).isPrefixOf (c :: (a' ++ (("---\n".data) ++ t))) = false := by
      by_cases h3 : 3 ≤ a'.length
      · rw [Bool.eq_false_iff]
        intro hp
        have hpre : ("---\n".data) <+: (c :: a') := by
          have hfull : ("---\n".data) <+: ((c :: a') ++ (("---\n".data) ++ t)) := by
            rw [List.cons_append]
            exact List.isPrefixOf_iff_prefix.mp hp
          rw [List.prefix_iff_eq_take] at hfull ⊢
          rw [List.take_append_of_le_length (by simp; omega)] at hfull
          exact hfull
        have hp2 : ("---\n".data).isPrefixOf (c :: a') = true :=
          List.isPrefixOf_iff_prefix.mpr hpre
        unfold hasSub at hsub
        rw [splitFirst, if_pos hp2] at hsub
        cases hsub
      · match a', hlast', h3 with
        | [], hl, _ =>
          have hc : c = '\n' := by
            simpa using hl
          subst hc
          simp [List.isPrefixOf]
        | [y], hl, _ =>
          have hy : y = '\n' := by
            simpa using hl
          subst hy
          simp [List.isPrefixOf]
        | [y, z], hl, _ =>
          have hz : z = '\n' := by
            simpa using hl
          subst hz
          simp [List.isPrefixOf]
        | y :: z :: w :: a'', _, h3 => exact absurd (by simp) h3
    have hrest : a' = [] ∨ a'.getLast? = some '\n' := by
      cases a' with
      | nil => exact Or.inl rfl
      | cons y a'' =>
        right
        rw [List.getLast?_cons_cons] at hlast'
        exact hlast'
    rw [List.cons_append, splitFirst]
    rw [if_neg (by rw [hnp]; exact Bool.false_ne_true)]
    rw [ih hsub' hrest]

theorem fmText_getLast (fm : List (Str × Str)) :
    MdUp.fmTextOf fm = [] ∨ (MdUp.fmTextOf fm).getLast? = some '\n' := by
  induction fm with
  | nil => exact Or.inl rfl
  | cons kv rest ih =>
    right
    rw [MdUp.fmTextOf, List.map_cons, List.flatten_cons]
    rcases ih with h | h
    · rw [MdUp.fmTextOf] at h
      rw [h, List.append_nil]
      rw [List.getLast?_append, List.getLast?_append]
      rfl
    · rw [MdUp.fmTextOf] at h
      rw [List.getLast?_append, h]
      rfl

theorem pyStrip_stable_parts (v : Str) (h : pyStrip v = v) :
    pyLstrip v = v ∧ pyRstrip v = v := by
  have hl1 : (pyLstrip v).length ≤ v.length := by
    unfold pyLstrip
    exact (List.dropWhile_sublist isPyWs).length_le
  have hr1 : (pyRstrip (pyLstrip v)).length ≤ (pyLstrip v).length := by
    unfold pyRstrip
    rw [List.length_reverse]
    have h2 : ((pyLstrip v).reverse.dropWhile isPyWs).length ≤ (pyLstrip v).reverse.length :=
      (List.dropWhile_sublist isPyWs).length_le
    rw [List.length_reverse] at h2
    exact h2
  have hlen : (pyLstrip v).length = v.length := by
    have := congrArg List.length h
    rw [pyStrip] at this
    omega
  have hsplit := List.takeWhile_append_dropWhile isPyWs v
  have hlen2 : (v.takeWhile isPyWs).length + (v.dropWhile isPyWs).length = v.length := by
    rw [← List.length_append, hsplit]
  have h0 : (v.takeWhile isPyWs).length = 0 := by
    rw [show (v.dropWhile isPyWs).length = v.length from hlen] at hlen2
    omega
  have ht : v.takeWhile isPyWs = [] := List.length_eq_zero.mp h0
  have hlv : pyLstrip v = v := by
    unfold pyLstrip
    conv_rhs => rw [← hsplit]
    rw [ht, List.nil_append]
  refine ⟨hlv, ?_⟩
  rw [pyStrip, hlv] at h
  exact h

theorem pyStrip_space_cons (v : Str) (h : pyStrip v = v) : pyStrip (' ' :: v) = v := by
  obtain ⟨hl, hr⟩ := pyStrip_stable_parts v h
  rw [pyStrip]
  rw [show pyLstrip (' ' :: v) = pyLstrip v from by
    unfold pyLstrip
    rw [List.dropWhile_cons_of_pos (by decide)]]
  rw [hl, hr]

theorem splitFirst_single (c : Char) (s : Str) :
    ∀ k : Str, c ∉ k → splitFirst [c] (k ++ c :: s) = some (k, s) := by
  intro k
  induction k with
  | nil =>
    intro _
    rw [List.nil_append, splitFirst]
    rw [if_pos (by simp [List.isPrefixOf])]
    rfl
  | cons x k' ih =>
    intro hc
    have hxc : ¬c = x := fun h => hc (by rw [h]; exact List.mem_cons_self x k')
    have hc' : c ∉ k' := fun h => hc (List.mem_cons_of_mem x h)
    rw [List.cons_append, splitFirst]
    rw [if_neg (by simp [List.isPrefixOf]; exact hxc)]
    rw [ih hc']

theorem dictUpd_notmem :
    ∀ (d : List (Str × Str)) (k v : Str), k ∉ d.map Prod.fst →
      dictUpd d k v = d ++ [(k, v)] := by
  intro d
  induction d with
  | nil => intro k v _; rfl
  | cons kv0 rest ih =>
    intro k v h
    obtain ⟨k0, v0⟩ := kv0
    rw [List.map_cons, List.mem_cons] at h
    push_neg at h
    rw [dictUpd]
    rw [if_neg (by simp; exact fun e => h.1 e.symm)]
    rw [ih k v h.2, List.cons_append]

theorem splitChar_append_cons (c : Char) (s : Str) :
    ∀ l : Str, c ∉ l → splitChar c (l ++ c :: s) = l :: splitChar c s := by
  intro l
  induction l with
  | nil =>
    intro _
    rw [List.nil_append, splitChar]
    simp
  | cons x l' ih =>
    intro hc
    have hxc : ¬x = c := fun h => hc (by rw [← h]; exact List.mem_cons_self x l')
    have hc' : c ∉ l' := fun h => hc (List.mem_cons_of_mem x h)
    rw [List.cons_append, splitChar]
    simp only [ih hc']
    simp [hxc]

theorem splitChar_flatten :
    ∀ lines : List Str, (∀ l ∈ lines, '\n' ∉ l) →
      splitChar '\n' ((lines.map (fun l => l ++ ['\n'])).flatten) = lines ++ [[]] := by
  intro lines
  induction lines with
  | nil =>
    intro _
    rw [List.map_nil, List.flatten_nil, splitChar, List.nil_append]
  | cons l rest ih =>
    intro h
    rw [List.map_cons, List.flatten_cons, List.append_assoc, List.singleton_append]
    rw [splitChar_append_cons '\n' _ l (h l (List.mem_cons_self l rest))]
    rw [ih (fun x hx => h x (List.mem_cons_of_mem l hx)), List.cons_append]

theorem fmTextOf_lines (fm : List (Str × Str)) :
    MdUp.fmTextOf fm =
      ((fm.map (fun kv => kv.1 ++ (": ".data) ++ kv.2)).map (fun l => l ++ ['\n'])).flatten := by
  rw [MdUp.fmTextOf, List.map_map]
  congr 1

theorem fm_fold_lines :
    ∀ (fm : List (Str × Str)) (d : List (Str × Str)),
      (∀ kv ∈ fm, ':' ∉ kv.1 ∧ pyStrip kv.1 = kv.1 ∧ pyStrip kv.2 = kv.2) →
      (fm.map Prod.fst).Nodup →
      (∀ kv ∈ fm, kv.1 ∉ d.map Prod.fst) →
      (fm.map (fun kv => kv.1 ++ (": ".data) ++ kv.2)).foldl
        (fun d line =>
          match splitFirst [':'] line with
          | some (k, v) => dictUpd d (pyStrip k) (pyStrip v)
          | none => d) d = d ++ fm := by
  intro fm
  induction fm with
  | nil =>
    intro d _ _ _
    rw [List.map_nil, List.foldl_nil, List.append_nil]
  | cons kv rest ih =>
    intro d h hnd hd
    obtain ⟨k, v⟩ := kv
    obtain ⟨hck, hsk, hsv⟩ := h (k, v) (List.mem_cons_self _ _)
    rw [List.map_cons, List.foldl_cons]
    have hline : (k ++ (": ".data) ++ v : Str) = k ++ ':' :: (' ' :: v) := by
      simp [List.append_assoc]
    have hstep :
        (match splitFirst [':'] (k ++ (": ".data) ++ v) with
          | some (k', v') => dictUpd d (pyStrip k') (pyStrip v')
          | none => d) = d ++ [(k, v)] := by
      rw [hline, splitFirst_single ':' (' ' :: v) k hck]
      dsimp only
      rw [show pyStrip (' ' :: v) = v from pyStrip_space_cons v hsv, hsk]
      exact dictUpd_notmem d k v (hd (k, v) (List.mem_cons_self _ _))
    rw [hstep]
    rw [List.map_cons] at hnd
    have hknotin : k ∉ rest.map Prod.fst := (List.nodup_cons.mp hnd).1
    rw [ih (d ++ [(k, v)])
      (fun kv hkv => h kv (List.mem_cons_of_mem _ hkv))
      (List.nodup_cons.mp hnd).2
      (fun kv hkv => by
        rw [List.map_append, List.mem_append]
        push_neg
        refine ⟨hd kv (List.mem_cons_of_mem _ hkv), ?_⟩
        simp only [List.map_cons, List.map_nil, List.mem_singleton]
        intro he
        exact hknotin (he ▸ List.mem_map_of_mem Prod.fst hkv))]
    rw [List.append_assoc, List.singleton_append]

theorem pySplit2_join (fm : List (Str × Str)) (body : Str)
    (hnm : hasSub ("---\n".data) (MdUp.fmTextOf fm) = false) :
    pySplit2 ("---\n".data) (MdUp.joinFrontmatter fm body) =
      [[], MdUp.fmTextOf fm, '\n' :: body] := by
  rw [MdUp.joinFrontmatter, pySplit2]
  rw [List.append_assoc, List.append_assoc]
  rw [splitFirst_m_self]
  dsimp only
  rw [show (("---\n\n".data) ++ body : Str) = ("---\n".data) ++ ('\n' :: body) from rfl]
  rw [splitFirst_marker_boundary ('\n' :: body) (MdUp.fmTextOf fm) hnm (fmText_getLast fm)]

/-- C1 (amended): `join(split(D)) = D` holds exactly on the canonical image of
the serialiser.  For metadata whose keys are colon- and newline-free,
strip-stable and pairwise distinct, whose values are newline-free and
strip-stable, whose serialised text contains no embedded `"---\n"`, and a body
with no leading newline, `parse_frontmatter (join fm body) = (fm, body)`, and
hence re-joining the parse result reproduces the document exactly. -/
theorem frontmatter_roundtrip_canonical (fm : List (Str × Str)) (body : Str)
    (hkv : ∀ kv ∈ fm, ':' ∉ kv.1 ∧ '\n' ∉ kv.1 ∧ pyStrip kv.1 = kv.1 ∧
                      '\n' ∉ kv.2 ∧ pyStrip kv.2 = kv.2)
    (hnd : (fm.map Prod.fst).Nodup)
    (hnm : hasSub ("---\n".data) (MdUp.fmTextOf fm) = false)
    (hbody : lstripNl body = body) :
    MdUp.parse_frontmatter (MdUp.joinFrontmatter fm body) = (fm, body) ∧
    MdUp.joinFrontmatter (MdUp.parse_frontmatter (MdUp.joinFrontmatter fm body)).1
        (MdUp.parse_frontmatter (MdUp.joinFrontmatter fm body)).2 =
      MdUp.joinFrontmatter fm body := by
  have hpref : ("---\n".data).isPrefixOf (MdUp.joinFrontmatter fm body) = true := by
    rw [MdUp.joinFrontmatter]
    exact List.isPrefixOf_iff_prefix.mpr (List.prefix_append _ _)
  have hmain : MdUp.parse_frontmatter (MdUp.joinFrontmatter fm body) = (fm, body) := by
    rw [MdUp.parse_frontmatter, if_pos hpref, pySplit2_join fm body hnm]
    show ((splitChar '\n' (MdUp.fmTextOf fm)).foldl
        (fun d line =>
          match splitFirst [':'] line with
          | some (k, v) => dictUpd d (pyStrip k) (pyStrip v)
          | none => d) [],
      lstripNl ('\n' :: body)) = (fm, body)
    rw [fmTextOf_lines fm]
    rw [splitChar_flatten _ (fun l hl => by
      rw [List.mem_map] at hl
      obtain ⟨kv, hkv2, rfl⟩ := hl
      obtain ⟨_, hk, _, hv, _⟩ := hkv kv hkv2
      rw [List.append_assoc]
      rw [List.mem_append]
      push_neg
      refine ⟨hk, ?_⟩
      rw [List.mem_append]
      push_neg
      exact ⟨by decide, hv⟩)]
    rw [List.foldl_append, List.foldl_cons, List.foldl_nil]
    rw [fm_fold_lines fm []
      (fun kv hkv2 => by
        obtain ⟨h1, _, h3, _, h5⟩ := hkv kv hkv2
        exact ⟨h1, h3, h5⟩)
      hnd
      (fun kv _ => by simp)]
    show ((fm : List (Str × Str)), lstripNl ('\n' :: body)) = (fm, body)
    rw [show lstripNl ('\n' :: body) = lstripNl body from by
      rw [lstripNl, lstripNl, List.dropWhile_cons_of_pos (by decide)]]
    rw [hbody]
  exact ⟨hmain, by rw [hmain]⟩

/-- C1 witness: the canonical document with metadata `title: My Doc` and body
`Hello` round-trips exactly. -/
theorem frontmatter_roundtrip_canonical_witness :
    MdUp.parse_frontmatter
        (MdUp.joinFrontmatter [(("title".data : Str), ("My Doc".data : Str))] ("Hello".data)) =
      ([(("title".data : Str), ("My Doc".data : Str))], "Hello".data) :=
  (frontmatter_roundtrip_canonical [(("title".data : Str), ("My Doc".data : Str))]
    ("Hello".data) (by decide) (by decide) (by decide) (by decide)).1

theorem mem_pyStrip_of_mem (c : Char) (l : Str) (hw : isPyWs c = false) (h : c ∈ l) :
    c ∈ pyStrip l := by
  have h1 : c ∈ pyLstrip l := by
    unfold pyLstrip
    have hsp : c ∈ l.takeWhile isPyWs ++ l.dropWhile isPyWs := by
      rw [List.takeWhile_append_dropWhile]
      exact h
    rcases List.mem_append.mp hsp with h2 | h2
    · rw [List.mem_takeWhile_imp h2] at hw
      cases hw
    · exact h2
  rw [pyStrip, pyRstrip, List.mem_reverse]
  have h2 : c ∈ (pyLstrip l).reverse := List.mem_reverse.mpr h1
  have hsp : c ∈ (pyLstrip l).reverse.takeWhile isPyWs ++ (pyLstrip l).reverse.dropWhile isPyWs := by
    rw [List.takeWhile_append_dropWhile]
    exact h2
  rcases List.mem_append.mp hsp with h3 | h3
  · rw [List.mem_takeWhile_imp h3] at hw
    cases hw
  · exact h3

theorem pyRstrip_prefix (l : Str) : pyRstrip l <+: l := by
  rw [pyRstrip]
  have h : l.reverse.dropWhile isPyWs <:+ l.reverse := List.dropWhile_suffix isPyWs
  rw [← List.reverse_prefix] at h
  rw [List.reverse_reverse] at h
  exact h

theorem classify_eq_specClassify (line : Str) (next : Option Str) :
    classify line next = specClassify line next := rfl

theorem classify_quote_pipe (rest : Str) (next : Str)
    (hp : (('>' :: ' ' :: rest : Str)).contains '|' = true)
    (hn : next.contains '|' = true) :
    classify ('>' :: ' ' :: rest) (some next) = .table := by
  have hb : (btick == '>') = false := by decide
  rw [classify]
  rw [if_neg (by rw [show (('>' :: ' ' :: rest : Str)).isEmpty = false from rfl]; exact Bool.false_ne_true)]
  rw [if_neg (by rw [show ("# ".data).isPrefixOf ('>' :: ' ' :: rest) = false from by
    simp [List.isPrefixOf]]; exact Bool.false_ne_true)]
  rw [if_neg (by rw [show ("## ".data).isPrefixOf ('>' :: ' ' :: rest) = false from by
    simp [List.isPrefixOf]]; exact Bool.false_ne_true)]
  rw [if_neg (by rw [show ("### ".data).isPrefixOf ('>' :: ' ' :: rest) = false from by
    simp [List.isPrefixOf]]; exact Bool.false_ne_true)]
  rw [if_neg (by rw [show fenceChars.isPrefixOf ('>' :: ' ' :: rest) = false from by
    simp [fenceChars, List.isPrefixOf, hb]]; exact Bool.false_ne_true)]
  rw [if_pos (by rw [hp, hn]; rfl)]

theorem divider_strip_prefix (rest : Str)
    (h : (pyStrip ('-' :: ' ' :: rest) == ("---".data)) = true) : False := by
  rw [beq_iff_eq] at h
  rw [pyStrip, show pyLstrip ('-' :: ' ' :: rest) = '-' :: ' ' :: rest from by
    rw [pyLstrip, List.dropWhile_cons_of_neg (by decide)]] at h
  have hp := pyRstrip_prefix ('-' :: ' ' :: rest)
  rw [h] at hp
  obtain ⟨t, ht⟩ := hp
  simp at ht

theorem classify_dash (rest : Str) (next : Option Str)
    (hnt : ((('-' :: ' ' :: rest : Str)).contains '|' &&
      (match next with | some n => n.contains '|' | none => false)) = false) :
    classify ('-' :: ' ' :: rest) next =
      if ("- [".data).isPrefixOf ('-' :: ' ' :: rest) then .todo else .bulleted := by
  have hb : (btick == '-') = false := by decide
  rw [classify.eq_def]
  rw [if_neg (by rw [show (('-' :: ' ' :: rest : Str)).isEmpty = false from rfl]; exact Bool.false_ne_true)]
  rw [if_neg (by rw [show ("# ".data).isPrefixOf ('-' :: ' ' :: rest) = false from by
    simp [List.isPrefixOf]]; exact Bool.false_ne_true)]
  rw [if_neg (by rw [show ("## ".data).isPrefixOf ('-' :: ' ' :: rest) = false from by
    simp [List.isPrefixOf]]; exact Bool.false_ne_true)]
  rw [if_neg (by rw [show ("### ".data).isPrefixOf ('-' :: ' ' :: rest) = false from by
    simp [List.isPrefixOf]]; exact Bool.false_ne_true)]
  rw [if_neg (by rw [show fenceChars.isPrefixOf ('-' :: ' ' :: rest) = false from by
    simp [fenceChars, List.isPrefixOf, hb]]; exact Bool.false_ne_true)]
  rw [if_neg (by rw [hnt]; exact Bool.false_ne_true)]
  rw [if_neg (fun hc => divider_strip_prefix rest hc)]
  rw [if_neg (by rw [show ("> ".data).isPrefixOf ('-' :: ' ' :: rest) = false from by
    simp [List.isPrefixOf]]; exact Bool.false_ne_true)]
  by_cases hbr : ("- [".data).isPrefixOf ('-' :: ' ' :: rest) = true
  · rw [if_neg (by
      rw [hbr, show ("- ".data).isPrefixOf ('-' :: ' ' :: rest) = true from by
        simp [List.isPrefixOf]]
      exact Bool.false_ne_true)]
    rw [if_pos hbr, if_pos hbr]
  · rw [Bool.not_eq_true] at hbr
    rw [if_pos (by
      rw [hbr, show ("- ".data).isPrefixOf ('-' :: ' ' :: rest) = true from by
        simp [List.isPrefixOf]]
      rfl)]
    rw [if_neg (by rw [hbr]; exact Bool.false_ne_true)]

theorem classify_dash_table (rest : Str) (next : Option Str)
    (htc : ((('-' :: ' ' :: rest : Str)).contains '|' &&
      (match next with | some n => n.contains '|' | none => false)) = true) :
    classify ('-' :: ' ' :: rest) next = .table := by
  have hb : (btick == '-') = false := by decide
  rw [classify.eq_def]
  rw [if_neg (by rw [show (('-' :: ' ' :: rest : Str)).isEmpty = false from rfl]; exact Bool.false_ne_true)]
  rw [if_neg (by rw [show ("# ".data).isPrefixOf ('-' :: ' ' :: rest) = false from by
    simp [List.isPrefixOf]]; exact Bool.false_ne_true)]
  rw [if_neg (by rw [show ("## ".data).isPrefixOf ('-' :: ' ' :: rest) = false from by
    simp [List.isPrefixOf]]; exact Bool.false_ne_true)]
  rw [if_neg (by rw [show ("### ".data).isPrefixOf ('-' :: ' ' :: rest) = false from by
    simp [List.isPrefixOf]]; exact Bool.false_ne_true)]
  rw [if_neg (by rw [show fenceChars.isPrefixOf ('-' :: ' ' :: rest) = false from by
    simp [fenceChars, List.isPrefixOf, hb]]; exact Bool.false_ne_true)]
  rw [if_pos htc]

/-- C5 (amended): the dispatch order of `markdown_to_notion_blocks` is blank →
heading 1/2/3 → code fence → table → divider → quote → bulleted (`- ` but not
`- [`) → to-do (`- [`) → numbered → paragraph: `classify` coincides with the
ordered pattern-predicate list `lineKindPreds` evaluated in that amended
order; a quote line is consumed as a table row whenever it and the next line
both contain `|`; a line whose strip equals `---` (a divider) can never
contain `|`; and a non-table `- ` line is a to-do exactly when `[` follows
the marker. -/
theorem line_precedence_amended :
    (∀ (line : Str) (next : Option Str), classify line next = specClassify line next) ∧
    (∀ (rest next : Str),
        (('>' :: ' ' :: rest : Str)).contains '|' = true → next.contains '|' = true →
        classify ('>' :: ' ' :: rest) (some next) = .table) ∧
    (∀ line : Str, (pyStrip line == ("---".data)) = true → line.contains '|' = false) ∧
    (∀ (rest : Str) (next : Option Str),
        classify ('-' :: ' ' :: rest) next ≠ .table →
        (classify ('-' :: ' ' :: rest) next = .todo ↔
          ("- [".data).isPrefixOf ('-' :: ' ' :: rest) = true)) := by
  refine ⟨fun line next => rfl, classify_quote_pipe, ?_, ?_⟩
  · intro line hd
    by_contra hc
    rw [Bool.not_eq_false] at hc
    have hmem : '|' ∈ line := by
      simpa [List.contains, List.elem_eq_mem] using hc
    have h2 := mem_pyStrip_of_mem '|' line (by decide) hmem
    rw [beq_iff_eq] at hd
    rw [hd] at h2
    simp at h2
  · intro rest next
    by_cases htc : ((('-' :: ' ' :: rest : Str)).contains '|' &&
        (match next with | some n => n.contains '|' | none => false)) = true
    · intro hnotable
      exact absurd (classify_dash_table rest next htc) hnotable
    · intro hnotable
      rw [Bool.not_eq_true] at htc
      rw [classify_dash rest next htc]
      by_cases hbr : ("- [".data).isPrefixOf ('-' :: ' ' :: rest) = true
      · rw [if_pos hbr]
        simp [hbr]
      · have hbr' : ("- [".data).isPrefixOf ('-' :: ' ' :: rest) = false :=
          Bool.not_eq_true _ ▸ (eq_false_of_ne_true hbr)
        rw [if_neg (by rw [hbr']; exact Bool.false_ne_true)]
        constructor
        · intro h
          cases h
        · intro h
          exact absurd h (by rw [hbr']; exact Bool.false_ne_true)

/-- C5 witness: `> a | b` followed by `> c | d` is a table row; a stripped
divider has no pipe; `- [x] t` is a to-do. -/
theorem line_precedence_amended_witness :
    classify ("> a | b".data) (some ("> c | d".data)) = .table ∧
    (("  --- ".data : Str)).contains '|' = false ∧
    classify ("- [x] t".data) none = .todo :=
  ⟨line_precedence_amended.2.1 ("a | b".data) ("> c | d".data) (by decide) (by decide),
   line_precedence_amended.2.2.1 ("  --- ".data) (by decide),
   (line_precedence_amended.2.2.2 ("[x] t".data) none (by decide)).mpr (by decide)⟩
